import Mathlib

/-!
# Contract state layer (action/protocol/execution/evm/contract.go)

A shallow embedding of the `contract` object: an account record, a storage trie
handle, a code cache and two dirty flags, together with the constructor `newContract`
and the operations `GetState`, `SetState`, `GetCode`, `SetCode`, `Commit`, `RootHash`,
`LoadRoot` and `Snapshot`.

Go pointers are addresses into an explicit heap: the account record
(`*state.Account`), the trie handle (`trie.Trie`) and the store (`db.KVStore`) of a
contract are cells of the heap, so two contracts may share a cell, as a contract and
its snapshot share their trie handle.  A method takes the receiver and the heap and
returns its Go result, the receiver afterwards and the heap afterwards.

The actions of action/vote.go and action/stopsubchain.go follow in namespace `Action`.
-/

namespace Evm

/-! ## Bytes, hashes, errors -/

/-- One byte. -/
abbrev Byte := Fin 256

/-- Contents of a byte slice. -/
abbrev Bytes := List Byte

/-- Go value of type `[]byte`: `none` is the nil slice, `some []` the empty non-nil one. -/
abbrev GoBytes := Option Bytes

/-- Go `error` values: a base error, or `errors.Wrapf(cause, format, args...)`. -/
inductive Error where
  | mk (msg : String)
  | wrapf (cause : Error) (format : String) (args : List Bytes)
  deriving DecidableEq, Repr

/-- Size of a hash in bytes (`hash.HashSize`). -/
def HashSize : Nat := 32

/-- Fixed-size hash (`hash.Hash32B`, a `[32]byte`). -/
abbrev Hash32B := { b : Bytes // b.length = 32 }

/-- The all-zero hash (`hash.ZeroHash32B`). -/
def ZeroHash32B : Hash32B := ⟨List.replicate 32 0, by simp⟩

/-- CodeKVNameSpace is the bucket name for code. -/
def CodeKVNameSpace : String := "Code"

/-- ContractKVNameSpace is the bucket name for contract data storage. -/
def ContractKVNameSpace : String := "Contract"

/-! ## Collaborators that the contract consumes through an interface -/

/-- Modelled from the spec: the account record `state.Account` (its declaration is not
among the sources): balance, nonce, code hash and storage root.  `CodeHash` is a
`[]byte` that the contract only ever uses as a store key, so nil and empty are not
told apart. -/
structure Account where
  Nonce : Nat
  Balance : Nat
  Root : Hash32B
  CodeHash : Bytes
  deriving DecidableEq

/-- Modelled from the spec: the interface `trie.Trie` (declared outside the sources), as
the methods the contract calls on a trie whose state has type `τ`:
`get(key) -> bytes`, `upsert(key, value) -> root_hash_side_effect | error`,
`root_hash() -> hash`, `set_root_hash(hash) -> ok | error`.
A call that can change the trie returns the trie afterwards, also when it fails. -/
structure Trie (τ : Type) where
  Get : τ → Bytes → GoBytes × Option Error
  Upsert : τ → Bytes → GoBytes → Option Error × τ
  RootHash : τ → Bytes
  SetRootHash : τ → Bytes → Option Error × τ

/-- Modelled from the spec: the interface `db.KVStore` (declared outside the sources), as
the two methods the contract calls on a store whose state has type `σ`:
`get(namespace, key) -> bytes | NotFound`, `put(namespace, key, value) -> ok | error`. -/
structure KVStore (σ : Type) where
  Get : σ → String → Bytes → GoBytes × Option Error
  Put : σ → String → Bytes → GoBytes → Option Error × σ

/-- What contract.go takes from other packages: the implementation behind its trie
handles, the implementation behind its stores, and `byteutil.BytesTo32B` (the
conversion of a byte slice to a 32-byte hash, whose body is not among the sources). -/
structure Env (τ σ : Type) where
  trie : Trie τ
  dao : KVStore σ
  BytesTo32B : Bytes → Hash32B

/-- A call made on a code store. -/
inductive Event where
  | daoGet (dao : Nat) (ns : String) (key : Bytes)
  | daoPut (dao : Nat) (ns : String) (key : Bytes) (value : GoBytes)
  deriving DecidableEq, Repr

/-- The heap: account records, trie handles and stores by address, the next free
address, and the log of the calls made on stores so far (the log is ghost state that
lets "performs no read" and "performs no write" be stated). -/
structure Heap (τ σ : Type) where
  accounts : Nat → Account
  tries : Nat → τ
  stores : Nat → σ
  next : Nat
  log : List Event

/-- Overwrite the storage-root field of the account at address `a`. -/
def Heap.setRoot {τ σ : Type} (h : Heap τ σ) (a : Nat) (r : Hash32B) : Heap τ σ :=
  { h with accounts := Function.update h.accounts a { h.accounts a with Root := r } }

/-- Overwrite the code-hash field of the account at address `a`. -/
def Heap.setCodeHash {τ σ : Type} (h : Heap τ σ) (a : Nat) (x : Bytes) : Heap τ σ :=
  { h with accounts := Function.update h.accounts a { h.accounts a with CodeHash := x } }

/-- Replace the trie at address `p`. -/
def Heap.setTrie {τ σ : Type} (h : Heap τ σ) (p : Nat) (t : τ) : Heap τ σ :=
  { h with tries := Function.update h.tries p t }

/-- Replace the store at address `p`. -/
def Heap.setStore {τ σ : Type} (h : Heap τ σ) (p : Nat) (s : σ) : Heap τ σ :=
  { h with stores := Function.update h.stores p s }

/-- Append a store call to the log. -/
def Heap.record {τ σ : Type} (h : Heap τ σ) (e : Event) : Heap τ σ :=
  { h with log := h.log ++ [e] }

/-- Modelled from the spec: `state.Account.Clone` (its body is not among the sources),
"a clone operation producing an independent copy": a new cell holding the same field
values.  Returns the address of the copy and the heap afterwards. -/
def Account.Clone {τ σ : Type} (a : Nat) (h : Heap τ σ) : Nat × Heap τ σ :=
  (h.next, { h with accounts := Function.update h.accounts h.next (h.accounts a),
                    next := h.next + 1 })

/-! ## The contract -/

/-- The `contract` struct.  `Account`, `dao` and `trie` are addresses in the heap. -/
structure contract where
  Account : Nat
  dirtyCode : Bool
  dirtyState : Bool
  code : GoBytes
  root : Hash32B
  dao : Nat
  trie : Nat
  deriving DecidableEq

/-- GetState get the value from contract storage. -/
def contract.GetState {τ σ : Type} (E : Env τ σ) (c : contract) (key : Hash32B)
    (h : Heap τ σ) : (GoBytes × Option Error) × contract × Heap τ σ :=
  let r := E.trie.Get (h.tries c.trie) key.val
  match r.2 with
  | some err => ((none, some err), c, h)
  | none => ((r.1, none), c, h)

/-- SetState set the value into contract storage. -/
def contract.SetState {τ σ : Type} (E : Env τ σ) (c : contract) (key : Hash32B)
    (value : GoBytes) (h : Heap τ σ) : Option Error × contract × Heap τ σ :=
  let c1 := { c with dirtyState := true }
  let r := E.trie.Upsert (h.tries c1.trie) key.val value
  let h1 := h.setTrie c1.trie r.2
  let h2 := h1.setRoot c1.Account (E.BytesTo32B (E.trie.RootHash (h1.tries c1.trie)))
  (r.1, c1, h2)

/-- GetCode gets the contract byte-code. -/
def contract.GetCode {τ σ : Type} (E : Env τ σ) (c : contract)
    (h : Heap τ σ) : (GoBytes × Option Error) × contract × Heap τ σ :=
  match c.code with
  | some b => ((some b, none), c, h)
  | none =>
    let key := (h.accounts c.Account).CodeHash
    (E.dao.Get (h.stores c.dao) CodeKVNameSpace key, c,
      h.record (Event.daoGet c.dao CodeKVNameSpace key))

/-- SetCode sets the contract byte-code. -/
def contract.SetCode {τ σ : Type} (c : contract) (hash : Hash32B) (code : GoBytes)
    (h : Heap τ σ) : contract × Heap τ σ :=
  let h1 := h.setCodeHash c.Account hash.val
  let c1 := { c with code := code }
  let c2 := { c1 with dirtyCode := true }
  (c2, h1)

/-- SelfState returns the account of this contract (the pointer itself). -/
def contract.SelfState (c : contract) : Nat := c.Account

/-- Commit writes the changes into underlying trie. -/
def contract.Commit {τ σ : Type} (E : Env τ σ) (c : contract)
    (h : Heap τ σ) : Option Error × contract × Heap τ σ :=
  let s1 : contract × Heap τ σ :=
    if c.dirtyState then
      ({ c with dirtyState := false },
        h.setRoot c.Account (E.BytesTo32B (E.trie.RootHash (h.tries c.trie))))
    else (c, h)
  let c1 := s1.1
  let h1 := s1.2
  if c1.dirtyCode then
    let key := (h1.accounts c1.Account).CodeHash
    let r := E.dao.Put (h1.stores c1.dao) CodeKVNameSpace key c1.code
    let h2 := (h1.setStore c1.dao r.2).record (Event.daoPut c1.dao CodeKVNameSpace key c1.code)
    match r.1 with
    | some err =>
      (some (Error.wrapf err "Failed to store code for new contract, codeHash %x" [key]), c1, h2)
    | none => (none, { c1 with dirtyCode := false }, h2)
  else (none, c1, h1)

/-- RootHash returns storage trie root hash (the storage-root field of the account). -/
def contract.RootHash {τ σ : Type} (c : contract) (h : Heap τ σ) : Hash32B :=
  (h.accounts c.Account).Root

/-- LoadRoot loads storage trie root. -/
def contract.LoadRoot {τ σ : Type} (E : Env τ σ) (c : contract)
    (h : Heap τ σ) : Option Error × contract × Heap τ σ :=
  let r := E.trie.SetRootHash (h.tries c.trie) (h.accounts c.Account).Root.val
  (r.1, c, h.setTrie c.trie r.2)

/-- Snapshot takes a snapshot of the contract object.  Returns the snapshot, the
receiver afterwards and the heap afterwards. -/
def contract.Snapshot {τ σ : Type} (c : contract)
    (h : Heap τ σ) : contract × contract × Heap τ σ :=
  let a := Account.Clone c.Account h
  let h1 := a.2
  ({ Account := a.1,
     dirtyCode := c.dirtyCode,
     dirtyState := c.dirtyState,
     code := c.code,
     root := (h1.accounts c.Account).Root,
     dao := c.dao,
     trie := c.trie }, c, h1)

/-- An option passed to `trie.NewTrie`: `trie.KVStoreOption(db)`,
`trie.KeyLengthOption(len)` or `trie.RootHashOption(rootHash)`. -/
inductive TrieOption (κ : Type) where
  | KVStoreOption (db : κ)
  | KeyLengthOption (len : Nat)
  | RootHashOption (rootHash : Bytes)
  deriving DecidableEq

/-- Modelled from the spec: the constructors `db.NewKVStoreForTrie`, `trie.NewTrie` and
the method `Start` of a trie (their bodies are not among the sources).
`NewKVStoreForTrie` "derives a sub-store scoped to a fixed namespace ... layered on the
given write-buffer" from the namespace, the store (its address and state) and the
address of the write-buffer; `NewTrie` makes a trie from its options; `Start` starts it.
Each may fail. -/
structure Factory (τ σ κ : Type) where
  NewKVStoreForTrie : String → Nat → σ → Nat → Except Error κ
  NewTrie : List (TrieOption κ) → Except Error τ
  Start : τ → Option Error × τ

/-- NewContract returns a Contract instance: the contract (or nil) and the error (or
nil), with the heap afterwards.  The new trie is put at the next free address. -/
def newContract {τ σ κ : Type} (F : Factory τ σ κ) (state dao batch : Nat)
    (h : Heap τ σ) : (Option contract × Option Error) × Heap τ σ :=
  match F.NewKVStoreForTrie ContractKVNameSpace dao (h.stores dao) batch with
  | Except.error err => ((none, some err), h)
  | Except.ok dbForTrie =>
    let options := [TrieOption.KVStoreOption dbForTrie, TrieOption.KeyLengthOption HashSize]
    let options :=
      if (h.accounts state).Root ≠ ZeroHash32B then
        options ++ [TrieOption.RootHashOption (h.accounts state).Root.val]
      else options
    match F.NewTrie options with
    | Except.error err =>
      ((none, some (Error.wrapf err "failed to create storage trie for new contract" [])), h)
    | Except.ok tr =>
      let r := F.Start tr
      let h1 := { h.setTrie h.next r.2 with next := h.next + 1 }
      match r.1 with
      | some err => ((none, some err), h1)
      | none =>
        ((some { Account := state,
                 dirtyCode := false,
                 dirtyState := false,
                 code := none,
                 root := (h.accounts state).Root,
                 dao := dao,
                 trie := h.next }, none), h1)

/-- Run `SetState` for each pair of `kvs` in turn, stopping at the first call that
returns an error: that error (or none), the contract and the heap after the last call
made. -/
def contract.SetStates {τ σ : Type} (E : Env τ σ) (c : contract)
    (kvs : List (Hash32B × GoBytes)) (h : Heap τ σ) : Option Error × contract × Heap τ σ :=
  match kvs with
  | [] => (none, c, h)
  | kv :: rest =>
    match contract.SetState E c kv.1 kv.2 h with
    | (none, c1, h1) => contract.SetStates E c1 rest h1
    | (some e, c1, h1) => (some e, c1, h1)

/-- A mutating call on a contract: `SetState(key, value)` or `SetCode(hash, code)`. -/
inductive Mutation where
  | setState (key : Hash32B) (value : GoBytes)
  | setCode (hash : Hash32B) (code : GoBytes)

/-- Make the calls of `ms` on the contract in turn, whatever each returns. -/
def contract.mutate {τ σ : Type} (E : Env τ σ) (c : contract) (ms : List Mutation)
    (h : Heap τ σ) : contract × Heap τ σ :=
  match ms with
  | [] => (c, h)
  | Mutation.setState k v :: rest =>
    contract.mutate E (contract.SetState E c k v h).2.1 rest (contract.SetState E c k v h).2.2
  | Mutation.setCode hash code :: rest =>
    contract.mutate E (contract.SetCode c hash code h).1 rest (contract.SetCode c hash code h).2

/-- A call of a public operation on a contract.  `snapshot keep` takes a snapshot and
goes on with the original when `keep` is true, with the snapshot when it is false. -/
inductive Op where
  | getState (key : Hash32B)
  | setState (key : Hash32B) (value : GoBytes)
  | getCode
  | setCode (hash : Hash32B) (code : GoBytes)
  | commit
  | loadRoot
  | snapshot (keep : Bool)

/-- Make one call: the error it returns (or none), the contract to go on with and the
heap afterwards. -/
def contract.step {τ σ : Type} (E : Env τ σ) (c : contract) (op : Op)
    (h : Heap τ σ) : Option Error × contract × Heap τ σ :=
  match op with
  | Op.getState k =>
    ((contract.GetState E c k h).1.2, (contract.GetState E c k h).2.1,
      (contract.GetState E c k h).2.2)
  | Op.setState k v => contract.SetState E c k v h
  | Op.getCode =>
    ((contract.GetCode E c h).1.2, (contract.GetCode E c h).2.1, (contract.GetCode E c h).2.2)
  | Op.setCode hash code =>
    (none, (contract.SetCode c hash code h).1, (contract.SetCode c hash code h).2)
  | Op.commit => contract.Commit E c h
  | Op.loadRoot => contract.LoadRoot E c h
  | Op.snapshot keep =>
    (none, if keep then (contract.Snapshot c h).2.1 else (contract.Snapshot c h).1,
      (contract.Snapshot c h).2.2)

/-- Make the calls of `ops` in turn, whatever each returns. -/
def contract.run {τ σ : Type} (E : Env τ σ) (c : contract) (ops : List Op)
    (h : Heap τ σ) : contract × Heap τ σ :=
  match ops with
  | [] => (c, h)
  | op :: rest => contract.run E (contract.step E c op h).2.1 rest (contract.step E c op h).2.2

/-- Whether the call, if it is a `LoadRoot`, returns no error. -/
def contract.loadOk {τ σ : Type} (E : Env τ σ) (c : contract) (op : Op) (h : Heap τ σ) : Bool :=
  match op with
  | Op.loadRoot => (contract.LoadRoot E c h).1.isNone
  | _ => true

/-- Whether the call sets the storage root from the trie or the trie from the storage
root: `SetState` or `LoadRoot`. -/
def Op.syncs : Op → Bool
  | Op.setState _ _ => true
  | Op.loadRoot => true
  | _ => false

/-- The storage-root field of the account of the contract equals the current root hash
of its trie, converted to 32 bytes. -/
def contract.RootSynced {τ σ : Type} (E : Env τ σ) (c : contract) (h : Heap τ σ) : Prop :=
  contract.RootHash c h = E.BytesTo32B (E.trie.RootHash (h.tries c.trie))

/-- Whether a call, if it is a `SetCode`, passes non-nil bytes together with their hash
under the hash function `H`. -/
def Op.hashedBy (H : Bytes → Hash32B) : Op → Prop
  | Op.setCode hash (some b) => hash = H b
  | Op.setCode _ none => False
  | _ => True

/-- Whenever `GetCode()` returns bytes `b` without error, the code hash of the account
is the hash of `b` under `H` (nil bytes hash as the empty sequence). -/
def contract.CodeHashed {τ σ : Type} (E : Env τ σ) (H : Bytes → Hash32B) (c : contract)
    (h : Heap τ σ) : Prop :=
  ∀ b : GoBytes, (contract.GetCode E c h).1 = (b, none) →
    (h.accounts c.Account).CodeHash = (H (b.getD [])).val

/-- A call in a run around one contract: a call on the contract itself, or a call made
in between on another contract `d` (a snapshot of it, the contract it is a snapshot of,
or any other). -/
inductive Call where
  | own (op : Op)
  | other (d : contract) (op : Op)

/-- Make the calls in turn, whatever each returns: a call on the contract itself changes
the contract and the heap, a call on another contract changes the heap.  Returns the
contract and the heap afterwards. -/
def contract.runAmong {τ σ : Type} (E : Env τ σ) (c : contract) (calls : List Call)
    (h : Heap τ σ) : contract × Heap τ σ :=
  match calls with
  | [] => (c, h)
  | Call.own op :: rest =>
    contract.runAmong E (contract.step E c op h).2.1 rest (contract.step E c op h).2.2
  | Call.other d op :: rest => contract.runAmong E c rest (contract.step E d op h).2.2

/-- Whether, in the run of `calls` around the contract, every `LoadRoot` of the contract
itself returns no error, every other contract called has an account record of its own,
and no `SetState` or `LoadRoot` is made through another contract on the trie handle of
the contract. -/
def contract.undisturbed {τ σ : Type} (E : Env τ σ) (c : contract) (calls : List Call)
    (h : Heap τ σ) : Bool :=
  match calls with
  | [] => true
  | Call.own op :: rest =>
    contract.loadOk E c op h &&
      contract.undisturbed E (contract.step E c op h).2.1 rest (contract.step E c op h).2.2
  | Call.other d op :: rest =>
    decide (d.Account ≠ c.Account) && (!op.syncs || decide (d.trie ≠ c.trie)) &&
      contract.undisturbed E c rest (contract.step E d op h).2.2

/-- Whether the run starts with a `SetState` or a `LoadRoot` of the contract itself. -/
def Call.startsSynced : List Call → Bool
  | Call.own op :: _ => op.syncs
  | _ => false

/-! ## What the claims assume of the collaborators -/

/-- A trie read after a successful write of the same key returns the written value. -/
def Trie.UpsertGet {τ : Type} (T : Trie τ) : Prop :=
  ∀ (t : τ) (k : Bytes) (v : GoBytes) (t1 : τ),
    T.Upsert t k v = (none, t1) → T.Get t1 k = (v, none)

/-- Run `Upsert` for each pair in turn, stopping at the first failure: that error
(or none) and the trie after the last call made. -/
def Trie.upserts {τ : Type} (T : Trie τ) (t : τ) (kvs : List (Bytes × GoBytes)) :
    Option Error × τ :=
  match kvs with
  | [] => (none, t)
  | kv :: rest =>
    match T.Upsert t kv.1 kv.2 with
    | (none, t1) => Trie.upserts T t1 rest
    | (some e, t1) => (some e, t1)

/-- Content addressing: nodes of earlier roots remain retrievable.  After any run of
successful writes that starts at `t0`, a successful reset of the active root to the
root hash of `t0` makes every read return what it returned at `t0`. -/
def Trie.Retrievable {τ : Type} (T : Trie τ) : Prop :=
  ∀ (t0 : τ) (kvs : List (Bytes × GoBytes)),
    (Trie.upserts T t0 kvs).1 = none →
    (T.SetRootHash (Trie.upserts T t0 kvs).2 (T.RootHash t0)).1 = none →
    ∀ k : Bytes, T.Get (T.SetRootHash (Trie.upserts T t0 kvs).2 (T.RootHash t0)).2 k = T.Get t0 k

/-- A store read after a successful write of the same namespace and key returns the
written value. -/
def KVStore.PutGet {σ : Type} (S : KVStore σ) : Prop :=
  ∀ (s : σ) (ns : String) (k : Bytes) (v : GoBytes) (s1 : σ),
    S.Put s ns k v = (none, s1) → S.Get s1 ns k = (v, none)

/-- After a successful reset of the active root to `r`, the root hash of the trie is `r`. -/
def Trie.RootReset {τ : Type} (T : Trie τ) : Prop :=
  ∀ (t : τ) (r : Bytes), (T.SetRootHash t r).1 = none → T.RootHash (T.SetRootHash t r).2 = r

/-- The conversion to 32 bytes gives back a 32-byte hash from its bytes. -/
def Env.RoundTrip32 {τ σ : Type} (E : Env τ σ) : Prop :=
  ∀ x : Hash32B, E.BytesTo32B x.val = x

/-! ## Reference collaborators -/

/-- Slots of a trie: key and value pairs, the most recent write of a key first. -/
abbrev Slots := List (Bytes × GoBytes)

/-- Modelled from the spec: a trie handle, "a mutable cursor over a content-addressed
tree rooted at a hash; nodes are never destructively overwritten in place": the active
root, the slots stored under every root computed so far, and an injected storage
failure that makes every write fail while it is set. -/
structure MemTrie where
  root : Bytes
  nodes : List (Bytes × Slots)
  fault : Option Error
  deriving DecidableEq

/-- Error of a read that finds nothing. -/
def ErrNotExist : Error := Error.mk "not exist"

/-- Error of a write whose root hash is already taken by other contents. -/
def ErrCollision : Error := Error.mk "hash collision"

/-- Root hash of the reference trie: 30 zero bytes, the number of slots and the sum of
all key and value bytes, both modulo 256. -/
def MemTrie.digest (m : Slots) : Bytes :=
  List.replicate 30 0 ++
    [⟨m.length % 256, Nat.mod_lt _ (by decide)⟩,
     ((m.map (fun kv => kv.1.sum + (kv.2.getD []).sum)).sum : Byte)]

/-- Read of the reference trie: the slot of `k` among those stored under the active root. -/
def MemTrie.Get (t : MemTrie) (k : Bytes) : GoBytes × Option Error :=
  match t.nodes.lookup t.root with
  | none => (none, some ErrNotExist)
  | some m =>
    match m.lookup k with
    | none => (none, some ErrNotExist)
    | some v => (v, none)

/-- Write of the reference trie: store the new slots under their root hash (never
overwriting what that hash already addresses) and move the active root there. -/
def MemTrie.Upsert (t : MemTrie) (k : Bytes) (v : GoBytes) : Option Error × MemTrie :=
  match t.fault with
  | some e => (some e, t)
  | none =>
    match t.nodes.lookup t.root with
    | none => (some ErrNotExist, t)
    | some m =>
      let m1 : Slots := (k, v) :: m
      let r := MemTrie.digest m1
      match t.nodes.lookup r with
      | none => (none, { t with root := r, nodes := (r, m1) :: t.nodes })
      | some m2 => if m2 = m1 then (none, { t with root := r }) else (some ErrCollision, t)

/-- Root reset of the reference trie: succeeds when the hash addresses stored slots. -/
def MemTrie.SetRootHash (t : MemTrie) (r : Bytes) : Option Error × MemTrie :=
  match t.nodes.lookup r with
  | none => (some ErrNotExist, t)
  | some _ => (none, { t with root := r })

/-- An empty reference trie. -/
def MemTrie.empty : MemTrie :=
  { root := MemTrie.digest [], nodes := [(MemTrie.digest [], [])], fault := none }

/-- The reference trie as an implementation of the trie interface. -/
def memTrie : Trie MemTrie :=
  { Get := MemTrie.Get
    Upsert := MemTrie.Upsert
    RootHash := fun t => t.root
    SetRootHash := MemTrie.SetRootHash }

/-- Modelled from the spec: a "namespaced persistent byte-store": the values written so
far by namespace and key, the most recent first, and the outcomes of the coming `Put`
calls (injected storage failures; a call beyond the list succeeds). -/
structure MemStore where
  data : List ((String × Bytes) × GoBytes)
  faults : List (Option Error)
  deriving DecidableEq

/-- Read of the reference store. -/
def MemStore.Get (s : MemStore) (ns : String) (k : Bytes) : GoBytes × Option Error :=
  match s.data.lookup (ns, k) with
  | none => (none, some ErrNotExist)
  | some v => (v, none)

/-- Write of the reference store. -/
def MemStore.Put (s : MemStore) (ns : String) (k : Bytes) (v : GoBytes) :
    Option Error × MemStore :=
  match s.faults with
  | some e :: rest => (some e, { s with faults := rest })
  | none :: rest => (none, { data := ((ns, k), v) :: s.data, faults := rest })
  | [] => (none, { data := ((ns, k), v) :: s.data, faults := [] })

/-- The reference store as an implementation of the store interface. -/
def memStore : KVStore MemStore :=
  { Get := MemStore.Get
    Put := MemStore.Put }

/-- Modelled from the spec: `byteutil.BytesTo32B` (its body is not among the sources),
the conversion "to 32 bytes": the last 32 bytes of the slice, padded with zero bytes
on the left. -/
def refBytesTo32B (b : Bytes) : Hash32B :=
  ⟨List.replicate (32 - (b.drop (b.length - 32)).length) 0 ++ b.drop (b.length - 32), by
    simp only [List.length_append, List.length_replicate, List.length_drop]; omega⟩

/-- The reference environment. -/
def refEnv : Env MemTrie MemStore :=
  { trie := memTrie
    dao := memStore
    BytesTo32B := refBytesTo32B }

/-- A 32-byte hash: 31 zero bytes, then `b`. -/
def hashOf (b : Byte) : Hash32B := ⟨List.replicate 31 0 ++ [b], by simp⟩

/-- A heap of the reference environment: every account cell holds `acct`, every trie
cell `t`, every store cell `s`; addresses below `next` are allocated. -/
def refHeap (acct : Account) (t : MemTrie) (s : MemStore) (next : Nat) :
    Heap MemTrie MemStore :=
  { accounts := fun _ => acct
    tries := fun _ => t
    stores := fun _ => s
    next := next
    log := [] }

/-- An account with zero storage root and empty code hash. -/
def zeroAccount : Account :=
  { Nonce := 0, Balance := 0, Root := ZeroHash32B, CodeHash := [] }

/-- A contract as `newContract` leaves it: clean flags, empty code cache. -/
def freshContract (account dao trie : Nat) : contract :=
  { Account := account, dirtyCode := false, dirtyState := false, code := none,
    root := ZeroHash32B, dao := dao, trie := trie }

/-- The first `trie.KVStoreOption` among the options. -/
def refStoreOption {κ : Type} : List (TrieOption κ) → Option κ
  | [] => none
  | TrieOption.KVStoreOption db :: _ => some db
  | _ :: rest => refStoreOption rest

/-- The first `trie.RootHashOption` among the options. -/
def refRootOption {κ : Type} : List (TrieOption κ) → Option Bytes
  | [] => none
  | TrieOption.RootHashOption r :: _ => some r
  | _ :: rest => refRootOption rest

/-- Modelled from the spec: constructors for the reference trie.  The sub-store for trie
nodes holds the nodes `persisted`; `NewTrie` needs a store option and makes a trie over
those nodes and the empty node, at the root of the root option or else at the empty
root; `Start` fails when the root addresses no stored node ("fails ... if trie
construction or startup fails"). -/
def refFactory (persisted : List (Bytes × Slots)) :
    Factory MemTrie MemStore (List (Bytes × Slots)) :=
  { NewKVStoreForTrie := fun _ _ _ _ => Except.ok persisted
    NewTrie := fun opts =>
      match refStoreOption opts with
      | none => Except.error (Error.mk "no store")
      | some db =>
        Except.ok { root := (refRootOption opts).getD (MemTrie.digest []),
                    nodes := (MemTrie.digest [], []) :: db,
                    fault := none }
    Start := fun t =>
      match t.nodes.lookup t.root with
      | none => (some ErrNotExist, t)
      | some _ => (none, t) }

/-! ## Concrete inputs -/

/-- Storage key 1. -/
def exKey : Hash32B := hashOf 1

/-- A heap with empty tries and empty stores, addresses 0 to 3 allocated. -/
def exHeap0 : Heap MemTrie MemStore := refHeap zeroAccount MemTrie.empty ⟨[], []⟩ 4

/-- The contract at account 0, store 0 and trie 0 after `SetState(exKey, [1])`. -/
def exC : contract :=
  (contract.SetState refEnv (freshContract 0 0 0) exKey (some [1]) exHeap0).2.1

/-- The heap after that `SetState`. -/
def exH : Heap MemTrie MemStore :=
  (contract.SetState refEnv (freshContract 0 0 0) exKey (some [1]) exHeap0).2.2

/-- A heap whose stores hold the bytes `[9]` under namespace "Code" and key `hashOf 1`. -/
def exHeapCode : Heap MemTrie MemStore :=
  refHeap zeroAccount MemTrie.empty ⟨[((CodeKVNameSpace, (hashOf 1).val), some [9])], []⟩ 4

/-- A heap whose tries fail every write with the error "io". -/
def exHeapFault : Heap MemTrie MemStore :=
  refHeap zeroAccount { MemTrie.empty with fault := some (Error.mk "io") } ⟨[], []⟩ 4

/-- A heap whose stores fail the first `Put` with the error "io" and accept the next. -/
def exHeapPutFault : Heap MemTrie MemStore :=
  refHeap zeroAccount MemTrie.empty ⟨[], [some (Error.mk "io")]⟩ 4

/-- The contract at account 0 after `SetState(exKey, [1])` and `SetCode(hashOf 1, [1])` on
heap `h`, with the heap afterwards: both dirty flags are set. -/
def exDirty (h : Heap MemTrie MemStore) : contract × Heap MemTrie MemStore :=
  contract.SetCode (contract.SetState refEnv (freshContract 0 0 0) exKey (some [1]) h).2.1
    (hashOf 1) (some [1])
    (contract.SetState refEnv (freshContract 0 0 0) exKey (some [1]) h).2.2

/-- The snapshot of `exC` on `exH` after `SetState(exKey, [2])` made on it. -/
def exSnapWritten : contract × Heap MemTrie MemStore :=
  ((contract.SetState refEnv (contract.Snapshot exC exH).1 exKey (some [2])
      (contract.Snapshot exC exH).2.2).2.1,
   (contract.SetState refEnv (contract.Snapshot exC exH).1 exKey (some [2])
      (contract.Snapshot exC exH).2.2).2.2)

/-- The contract `exC` after it has written `SetState(exKey, [2])` once its snapshot
was taken on `exH`, with the heap afterwards: the shared trie has moved on. -/
def exOrigWritten : contract × Heap MemTrie MemStore :=
  ((contract.SetState refEnv exC exKey (some [2]) (contract.Snapshot exC exH).2.2).2.1,
   (contract.SetState refEnv exC exKey (some [2]) (contract.Snapshot exC exH).2.2).2.2)

/-- A revert: the snapshot takes the trie over with `LoadRoot`, then writes a slot, while
the original reads a slot, commits and sets code in between. -/
def exRevert : List Call :=
  [Call.own Op.loadRoot,
   Call.other exOrigWritten.1 (Op.getState exKey),
   Call.other exOrigWritten.1 Op.commit,
   Call.own (Op.setState (hashOf 2) (some [4])),
   Call.other exOrigWritten.1 (Op.setCode (hashOf 3) (some [3])),
   Call.own Op.getCode]

/-- A stand-in for the hash function of code: 31 zero bytes, then the sum of the bytes
modulo 256. -/
def exHash (b : Bytes) : Hash32B := hashOf b.sum

/-- A run that sets code together with its hash under `exHash`, commits, takes a
snapshot and goes on with it, and writes a slot. -/
def exCodeOps : List Op :=
  [Op.setCode (exHash [1, 2]) (some [1, 2]), Op.commit, Op.snapshot false,
   Op.setState exKey (some [4])]

/-- The contract that `newContract` makes for account `a` over store 0 on heap `h`, with
no persisted trie nodes (a contract with clean flags when construction fails). -/
def exNew (a : Nat) (h : Heap MemTrie MemStore) : contract :=
  ((newContract (refFactory []) a 0 0 h).1.1).getD (freshContract a 0 0)

/-! ## Contracts over one store and one write-buffer

`newContract` gives the trie of every contract the same bucket of the store behind the
write-buffer: `db.NewKVStoreForTrie(ContractKVNameSpace, dao, db.CachedBatchOption(batch))`.
Here the nodes of that bucket are part of the heap and every trie handle reads and
writes them, so that a write through one handle can reach what another handle reads. -/

/-- Modelled from the spec: the interface `trie.Trie` (declared outside the sources) seen
together with the store under it: "a mutable cursor over a content-addressed tree rooted
at a hash".  A call on a trie handle takes the nodes of the bucket (`β`) besides the
state of the handle (`τ`); a write returns the nodes and the handle afterwards, also
when it fails. -/
structure BufTrie (β τ : Type) where
  Get : β → τ → Bytes → GoBytes × Option Error
  Upsert : β → τ → Bytes → GoBytes → Option Error × β × τ
  RootHash : β → τ → Bytes

/-- Modelled from the spec: the constructors `db.NewKVStoreForTrie`, `trie.NewTrie` and
the method `Start` of a trie (their bodies are not among the sources), for tries that
share the nodes of one bucket: `Start` reads and may write those nodes. -/
structure BufFactory (β τ κ : Type) where
  NewKVStoreForTrie : String → Nat → Nat → Except Error κ
  NewTrie : List (TrieOption κ) → Except Error τ
  Start : β → τ → Option Error × β × τ

/-- The heap of the contracts over one store and one write-buffer: account records and
trie handles by address, the nodes of the bucket "Contract" that all the handles share,
and the next free address. -/
structure BufHeap (β τ : Type) where
  accounts : Nat → Account
  tries : Nat → τ
  nodes : β
  next : Nat

/-- Overwrite the storage-root field of the account at address `a`. -/
def BufHeap.setRoot {β τ : Type} (w : BufHeap β τ) (a : Nat) (r : Hash32B) : BufHeap β τ :=
  { w with accounts := Function.update w.accounts a { w.accounts a with Root := r } }

/-- Replace the shared nodes and the trie handle at address `p`. -/
def BufHeap.setTrie {β τ : Type} (w : BufHeap β τ) (p : Nat) (b : β) (t : τ) : BufHeap β τ :=
  { w with nodes := b, tries := Function.update w.tries p t }

/-- NewContract returns a Contract instance, over the shared bucket: the contract (or
nil) and the error (or nil), with the heap afterwards. -/
def Shared.newContract {β τ κ : Type} (F : BufFactory β τ κ) (state dao batch : Nat)
    (w : BufHeap β τ) : (Option contract × Option Error) × BufHeap β τ :=
  match F.NewKVStoreForTrie ContractKVNameSpace dao batch with
  | Except.error err => ((none, some err), w)
  | Except.ok dbForTrie =>
    let options := [TrieOption.KVStoreOption dbForTrie, TrieOption.KeyLengthOption HashSize]
    let options :=
      if (w.accounts state).Root ≠ ZeroHash32B then
        options ++ [TrieOption.RootHashOption (w.accounts state).Root.val]
      else options
    match F.NewTrie options with
    | Except.error err =>
      ((none, some (Error.wrapf err "failed to create storage trie for new contract" [])), w)
    | Except.ok tr =>
      let r := F.Start w.nodes tr
      let w1 := { w.setTrie w.next r.2.1 r.2.2 with next := w.next + 1 }
      match r.1 with
      | some err => ((none, some err), w1)
      | none =>
        ((some { Account := state,
                 dirtyCode := false,
                 dirtyState := false,
                 code := none,
                 root := (w.accounts state).Root,
                 dao := dao,
                 trie := w.next }, none), w1)

/-- GetState get the value from contract storage, over the shared bucket. -/
def Shared.GetState {β τ : Type} (T : BufTrie β τ) (c : contract) (key : Hash32B)
    (w : BufHeap β τ) : (GoBytes × Option Error) × contract × BufHeap β τ :=
  let r := T.Get w.nodes (w.tries c.trie) key.val
  match r.2 with
  | some err => ((none, some err), c, w)
  | none => ((r.1, none), c, w)

/-- SetState set the value into contract storage, over the shared bucket; `conv` is
`byteutil.BytesTo32B`. -/
def Shared.SetState {β τ : Type} (T : BufTrie β τ) (conv : Bytes → Hash32B) (c : contract)
    (key : Hash32B) (value : GoBytes) (w : BufHeap β τ) :
    Option Error × contract × BufHeap β τ :=
  let c1 := { c with dirtyState := true }
  let r := T.Upsert w.nodes (w.tries c1.trie) key.val value
  let w1 := w.setTrie c1.trie r.2.1 r.2.2
  let w2 := w1.setRoot c1.Account (conv (T.RootHash w1.nodes (w1.tries c1.trie)))
  (r.1, c1, w2)

/-- RootHash returns storage trie root hash (the storage-root field of the account). -/
def Shared.RootHash {β τ : Type} (c : contract) (w : BufHeap β τ) : Hash32B :=
  (w.accounts c.Account).Root

/-- Content addressing of the nodes that the tries share: "nodes are never destructively
overwritten in place — inserting new keys creates new nodes while old nodes addressed by
earlier roots remain retrievable".  `ext b b1` says that the nodes `b1` keep every node
of `b`; `stored b t` says that the root of the handle `t` addresses a node of `b`.  A
write, successful or not, keeps every node; a stored root stays stored, and reads at it
stay the same, when nodes are kept. -/
structure BufTrie.ContentAddressed {β τ : Type} (T : BufTrie β τ) (ext : β → β → Prop)
    (stored : β → τ → Prop) : Prop where
  upsert_ext : ∀ (b : β) (t : τ) (k : Bytes) (v : GoBytes), ext b (T.Upsert b t k v).2.1
  stored_ext : ∀ (b b1 : β) (t : τ), ext b b1 → stored b t → stored b1 t
  get_ext : ∀ (b b1 : β) (t : τ) (k : Bytes), ext b b1 → stored b t →
    T.Get b1 t k = T.Get b t k

/-- Modelled from the spec: the state of a handle of the reference trie over shared
nodes: its active root and an injected storage failure. -/
structure Cursor where
  root : Bytes
  fault : Option Error
  deriving DecidableEq

/-- The reference trie over shared nodes: the reference trie `MemTrie` whose nodes are
those of the bucket. -/
def refBufTrie : BufTrie (List (Bytes × Slots)) Cursor :=
  { Get := fun b t k => MemTrie.Get { root := t.root, nodes := b, fault := t.fault } k
    Upsert := fun b t k v =>
      ((MemTrie.Upsert { root := t.root, nodes := b, fault := t.fault } k v).1,
       (MemTrie.Upsert { root := t.root, nodes := b, fault := t.fault } k v).2.nodes,
       { root := (MemTrie.Upsert { root := t.root, nodes := b, fault := t.fault } k v).2.root,
         fault := (MemTrie.Upsert { root := t.root, nodes := b, fault := t.fault } k v).2.fault })
    RootHash := fun _ t => t.root }

/-- The nodes `b1` keep every node of `b`. -/
def refExt (b b1 : List (Bytes × Slots)) : Prop :=
  ∀ (r : Bytes) (m : Slots), b.lookup r = some m → b1.lookup r = some m

/-- The root of the handle addresses a node of `b`. -/
def refStored (b : List (Bytes × Slots)) (t : Cursor) : Prop :=
  (b.lookup t.root).isSome = true

/-- Modelled from the spec: constructors for the reference trie over shared nodes.
`NewTrie` needs a store option and puts the handle at the root of the root option or
else at the empty root; `Start` succeeds when the root addresses a stored node, "starts
an empty trie" by storing the empty node when the root is the empty root, and fails
otherwise. -/
def refBufFactory : BufFactory (List (Bytes × Slots)) Cursor (String × Nat × Nat) :=
  { NewKVStoreForTrie := fun ns dao batch => Except.ok (ns, dao, batch)
    NewTrie := fun opts =>
      match refStoreOption opts with
      | none => Except.error (Error.mk "no store")
      | some _ =>
        Except.ok { root := (refRootOption opts).getD (MemTrie.digest []), fault := none }
    Start := fun b t =>
      match b.lookup t.root with
      | some _ => (none, b, t)
      | none =>
        if t.root = MemTrie.digest [] then (none, (MemTrie.digest [], []) :: b, t)
        else (some ErrNotExist, b, t) }

/-- A heap with no trie node stored, every account record zero, addresses 0 to 3
allocated. -/
def shHeap0 : BufHeap (List (Bytes × Slots)) Cursor :=
  { accounts := fun _ => zeroAccount
    tries := fun _ => { root := MemTrie.digest [], fault := none }
    nodes := []
    next := 4 }

/-- The contract that `newContract` makes for the account record `a` over store 0 and
write-buffer 0 on heap `w` (a contract with clean flags when construction fails). -/
def shNew (a : Nat) (w : BufHeap (List (Bytes × Slots)) Cursor) : contract :=
  ((Shared.newContract refBufFactory a 0 0 w).1.1).getD (freshContract a 0 0)

/-- The heap after that `newContract`. -/
def shNewHeap (a : Nat) (w : BufHeap (List (Bytes × Slots)) Cursor) :
    BufHeap (List (Bytes × Slots)) Cursor :=
  (Shared.newContract refBufFactory a 0 0 w).2

/-- Contract `A` for account record 0, made first. -/
def shA : contract := shNew 0 shHeap0

/-- Contract `B` for account record 1, made next over the same store and write-buffer. -/
def shB : contract := shNew 1 (shNewHeap 0 shHeap0)

/-- The heap once `A` and `B` are made and `B` has written `SetState(exKey, [7])`. -/
def shHeapAB : BufHeap (List (Bytes × Slots)) Cursor :=
  (Shared.SetState refBufTrie refBytesTo32B shB exKey (some [7])
    (shNewHeap 1 (shNewHeap 0 shHeap0))).2.2

/-- A second contract for account record 0, made after `A` over the same store and
write-buffer. -/
def shA2 : contract := shNew 0 (shNewHeap 0 shHeap0)

/-- The heap once `A` and that second contract are made. -/
def shHeapAA : BufHeap (List (Bytes × Slots)) Cursor := shNewHeap 0 (shNewHeap 0 shHeap0)

end Evm

/-! # Actions (action/vote.go, action/stopsubchain.go) -/

namespace Action

open Evm

/-- VoteIntrinsicGas represents the intrinsic gas for vote. -/
def VoteIntrinsicGas : Nat := 10000

/-- StopSubChainIntrinsicGas is the instrinsic gas for stop sub chain action. -/
def StopSubChainIntrinsicGas : Nat := 1000

/-- Modelled from the spec: the constant `version.ProtocolVersion` (declared outside the
sources); no statement below depends on its value. -/
def ProtocolVersion : Nat := 1

/-- Modelled from the spec: the error value `ErrAddress` of package action (declared
outside the sources); only its identity matters. -/
def ErrAddress : Error := Error.mk "invalid address"

/-- Modelled from the spec: the struct `AbstractAction` (declared outside the sources),
with the fields that the constructors in the sources set.  `nonce` and `gasLimit` are
`uint64` values that are stored and never computed with; `gasPrice` is a `*big.Int`,
`none` for the nil pointer. -/
structure AbstractAction where
  version : Nat
  nonce : Nat
  srcAddr : String
  dstAddr : String
  gasLimit : Nat
  gasPrice : Option Int
  deriving DecidableEq

/-- The zero value `AbstractAction{}`. -/
def AbstractAction.zero : AbstractAction :=
  { version := 0, nonce := 0, srcAddr := "", dstAddr := "", gasLimit := 0, gasPrice := none }

/-- Modelled from the spec: the accessor `SrcAddr` (outside the sources) returns the
source address field. -/
def AbstractAction.SrcAddr (act : AbstractAction) : String := act.srcAddr

/-- Modelled from the spec: the accessor `DstAddr` (outside the sources) returns the
destination address field. -/
def AbstractAction.DstAddr (act : AbstractAction) : String := act.dstAddr

/-- Modelled from the spec: the accessor `Nonce` (outside the sources) returns the nonce
field. -/
def AbstractAction.Nonce (act : AbstractAction) : Nat := act.nonce

/-- Modelled from the spec: the accessor `GasLimit` (outside the sources) returns the gas
limit field. -/
def AbstractAction.GasLimit (act : AbstractAction) : Nat := act.gasLimit

/-- Modelled from the spec: the accessor `GasPrice` (outside the sources) returns the
value of the gas price, zero for the nil pointer; the statements below take a non-nil
gas price. -/
def AbstractAction.GasPrice (act : AbstractAction) : Int := act.gasPrice.getD 0

/-- Vote defines the struct of account-based vote. -/
structure Vote where
  AbstractAction : AbstractAction
  deriving DecidableEq

/-- NewVote returns a Vote instance: the vote (or nil) and the error (or nil).
`errors.Wrap(err, msg)` is `Error.wrapf err msg []`. -/
def NewVote (nonce : Nat) (voterAddress : String) (voteeAddress : String) (gasLimit : Nat)
    (gasPrice : Option Int) : Option Vote × Option Error :=
  if voterAddress = "" then
    (none, some (Error.wrapf ErrAddress "address of the voter is empty" []))
  else
    (some { AbstractAction :=
              { version := ProtocolVersion,
                nonce := nonce,
                srcAddr := voterAddress,
                dstAddr := voteeAddress,
                gasLimit := gasLimit,
                gasPrice := gasPrice } }, none)

/-- Voter returns the address of the voter. -/
def Vote.Voter (v : Vote) : String := v.AbstractAction.SrcAddr

/-- Votee returns the address of the votee. -/
def Vote.Votee (v : Vote) : String := v.AbstractAction.DstAddr

/-- IntrinsicGas returns the intrinsic gas of a vote. -/
def Vote.IntrinsicGas (_v : Vote) : Nat × Option Error := (VoteIntrinsicGas, none)

/-- Cost returns the total cost of a vote: the fee (or nil) and the error (or nil). -/
def Vote.Cost (v : Vote) : Option Int × Option Error :=
  match v.IntrinsicGas with
  | (_, some err) => (none, some (Error.wrapf err "failed to get intrinsic gas for the vote" []))
  | (intrinsicGas, none) => (some (v.AbstractAction.GasPrice * (intrinsicGas : Int)), none)

/-- StopSubChain defines the action to stop sub chain. -/
structure StopSubChain where
  AbstractAction : AbstractAction
  stopHeight : Nat
  deriving DecidableEq

/-- The zero value `StopSubChain{}`. -/
def StopSubChain.zero : StopSubChain :=
  { AbstractAction := AbstractAction.zero, stopHeight := 0 }

/-- NewStopSubChain returns a StopSubChain instance. -/
def NewStopSubChain (senderAddress : String) (nonce : Nat) (chainAddress : String)
    (stopHeight : Nat) (gasLimit : Nat) (gasPrice : Option Int) : StopSubChain :=
  { AbstractAction :=
      { version := ProtocolVersion,
        nonce := nonce,
        srcAddr := senderAddress,
        dstAddr := chainAddress,
        gasLimit := gasLimit,
        gasPrice := gasPrice },
    stopHeight := stopHeight }

/-- ChainAddress returns the address of the sub chain. -/
def StopSubChain.ChainAddress (ssc : StopSubChain) : String := ssc.AbstractAction.DstAddr

/-- StopHeight returns the height to stop the sub chain. -/
def StopSubChain.StopHeight (ssc : StopSubChain) : Nat := ssc.stopHeight

/-- Modelled from the spec: the protobuf message `iproto.StopSubChainPb` (generated code
outside the sources), with the two fields that `Proto` fills. -/
structure StopSubChainPb where
  StopHeight : Nat
  SubChainAddress : String
  deriving DecidableEq

/-- Proto converts StopSubChain to its protobuf message. -/
def StopSubChain.Proto (ssc : StopSubChain) : StopSubChainPb :=
  { StopHeight := ssc.stopHeight,
    SubChainAddress := ssc.AbstractAction.dstAddr }

/-- LoadProto converts a protobuf message to StopSubChain.  The receiver and the message
are pointers (`none` is nil); returns the receiver afterwards and the error (or nil). -/
def StopSubChain.LoadProto (ssc : Option StopSubChain) (pbSSC : Option StopSubChainPb) :
    Option StopSubChain × Option Error :=
  match ssc with
  | none => (none, some (Error.mk "nil action to load proto"))
  | some _ =>
    let ssc1 := StopSubChain.zero
    match pbSSC with
    | none => (some ssc1, some (Error.mk "empty action proto to load"))
    | some pb => (some { ssc1 with stopHeight := pb.StopHeight }, none)

/-- IntrinsicGas returns the intrinsic gas of a StopSubChain. -/
def StopSubChain.IntrinsicGas (_ssc : StopSubChain) : Nat × Option Error :=
  (StopSubChainIntrinsicGas, none)

/-- Cost returns the total cost of a StopSubChain. -/
def StopSubChain.Cost (ssc : StopSubChain) : Option Int × Option Error :=
  match ssc.IntrinsicGas with
  | (_, some err) =>
    (none, some (Error.wrapf err "failed to get intrinsic gas for the stop sub-chain action" []))
  | (intrinsicGas, none) => (some (ssc.AbstractAction.GasPrice * (intrinsicGas : Int)), none)

end Action

namespace Evm

/-! ## Lemmas on the reference collaborators -/

theorem memTrie_UpsertGet : memTrie.UpsertGet := by
  intro t k v t1 hup
  simp only [memTrie, MemTrie.Upsert] at hup
  simp only [memTrie, MemTrie.Get]
  cases hf : t.fault with
  | some e => simp [hf] at hup
  | none =>
    simp only [hf] at hup
    cases hr : t.nodes.lookup t.root with
    | none => simp [hr] at hup
    | some m =>
      simp only [hr] at hup
      cases hd : t.nodes.lookup (MemTrie.digest ((k, v) :: m)) with
      | none =>
        simp only [hd, Prod.mk.injEq, true_and] at hup
        subst hup
        simp [List.lookup_cons]
      | some m2 =>
        simp only [hd] at hup
        by_cases hm : m2 = (k, v) :: m
        · simp only [hm, if_true, Prod.mk.injEq, true_and] at hup
          subst hup
          simp [hd, hm, List.lookup_cons]
        · simp [hm] at hup

theorem MemTrie.Upsert_nodes (t : MemTrie) (k : Bytes) (v : GoBytes) (r : Bytes) (m : Slots)
    (h : t.nodes.lookup r = some m) : (MemTrie.Upsert t k v).2.nodes.lookup r = some m := by
  unfold MemTrie.Upsert
  cases hf : t.fault with
  | some e => simpa using h
  | none =>
    cases hr : t.nodes.lookup t.root with
    | none => simpa using h
    | some m0 =>
      cases hd : t.nodes.lookup (MemTrie.digest ((k, v) :: m0)) with
      | none =>
        have hne : r ≠ MemTrie.digest ((k, v) :: m0) := by
          intro he
          rw [he, hd] at h
          cases h
        have hb : (r == MemTrie.digest ((k, v) :: m0)) = false := by simpa using hne
        simp [hd, List.lookup_cons, hb, h]
      | some m2 =>
        by_cases hm : m2 = (k, v) :: m0
        · simpa [hd, hm] using h
        · simpa [hd, hm] using h

theorem memTrie_upserts_nodes (kvs : List (Bytes × GoBytes)) :
    ∀ (t : MemTrie) (r : Bytes) (m : Slots), t.nodes.lookup r = some m →
      (Trie.upserts memTrie t kvs).2.nodes.lookup r = some m := by
  induction kvs with
  | nil => intro t r m h; simpa [Trie.upserts] using h
  | cons kv rest ih =>
    intro t r m h
    have h1 := MemTrie.Upsert_nodes t kv.1 kv.2 r m h
    unfold Trie.upserts
    cases hu : memTrie.Upsert t kv.1 kv.2 with
    | mk e t1 =>
      have ht1 : t1 = (MemTrie.Upsert t kv.1 kv.2).2 := by
        have := congrArg Prod.snd hu
        simpa [memTrie] using this.symm
      cases e with
      | none => simpa using ih t1 r m (ht1 ▸ h1)
      | some e => simpa [ht1] using h1

theorem memTrie_Retrievable : memTrie.Retrievable := by
  intro t0 kvs hups hset k
  cases hr : t0.nodes.lookup t0.root with
  | some m =>
    have hkeep := memTrie_upserts_nodes kvs t0 t0.root m hr
    have e1 : memTrie.SetRootHash = MemTrie.SetRootHash := rfl
    have e2 : memTrie.Get = MemTrie.Get := rfl
    have e3 : memTrie.RootHash t0 = t0.root := rfl
    simp only [e1, e2, e3, MemTrie.SetRootHash, hkeep, MemTrie.Get, hr]
  | none =>
    cases kvs with
    | nil =>
      have e1 : memTrie.SetRootHash = MemTrie.SetRootHash := rfl
      have e3 : memTrie.RootHash t0 = t0.root := rfl
      simp [e1, e3, MemTrie.SetRootHash, Trie.upserts, hr] at hset
    | cons kv rest =>
      have hfail : (MemTrie.Upsert t0 kv.1 kv.2).1 ≠ none := by
        unfold MemTrie.Upsert
        cases t0.fault <;> simp [hr]
      unfold Trie.upserts at hups
      cases hu : memTrie.Upsert t0 kv.1 kv.2 with
      | mk e t1 =>
        have he : e = (MemTrie.Upsert t0 kv.1 kv.2).1 := by
          have := congrArg Prod.fst hu
          simpa [memTrie] using this.symm
        cases e with
        | none => exact absurd he.symm hfail
        | some e => simp [hu] at hups

theorem memStore_PutGet : memStore.PutGet := by
  intro s ns k v s1 hput
  simp only [memStore, MemStore.Put] at hput
  simp only [memStore, MemStore.Get]
  cases hf : s.faults with
  | nil =>
    simp only [hf, Prod.mk.injEq, true_and] at hput
    subst hput
    simp [List.lookup_cons]
  | cons f rest =>
    cases f with
    | some e => simp [hf] at hput
    | none =>
      simp only [hf, Prod.mk.injEq, true_and] at hput
      subst hput
      simp [List.lookup_cons]

/-! ## Lemmas on the contract operations -/

theorem contract.SetStates_spec {τ σ : Type} (E : Env τ σ) (kvs : List (Hash32B × GoBytes)) :
    ∀ (c : contract) (h : Heap τ σ),
      (contract.SetStates E c kvs h).2.1.trie = c.trie ∧
      (contract.SetStates E c kvs h).2.1.Account = c.Account ∧
      (∀ a : Nat, a ≠ c.Account →
        (contract.SetStates E c kvs h).2.2.accounts a = h.accounts a) ∧
      (contract.SetStates E c kvs h).1 =
        (Trie.upserts E.trie (h.tries c.trie) (kvs.map (fun kv => (kv.1.val, kv.2)))).1 ∧
      (contract.SetStates E c kvs h).2.2.tries c.trie =
        (Trie.upserts E.trie (h.tries c.trie) (kvs.map (fun kv => (kv.1.val, kv.2)))).2 := by
  induction kvs with
  | nil => intro c h; simp [contract.SetStates, Trie.upserts]
  | cons kv rest ih =>
    intro c h
    unfold contract.SetStates
    simp only [List.map_cons]
    unfold Trie.upserts
    cases hu : E.trie.Upsert (h.tries c.trie) kv.1.val kv.2 with
    | mk e t1 =>
      have hs : contract.SetState E c kv.1 kv.2 h =
          (e, { c with dirtyState := true },
            (h.setTrie c.trie t1).setRoot c.Account (E.BytesTo32B (E.trie.RootHash t1))) := by
        simp [contract.SetState, hu, Heap.setTrie]
      rw [hs]
      cases e with
      | none =>
        obtain ⟨i1, i2, i3, i4, i5⟩ := ih { c with dirtyState := true }
          ((h.setTrie c.trie t1).setRoot c.Account (E.BytesTo32B (E.trie.RootHash t1)))
        simp only at i1 i2 i3 i4 i5 ⊢
        refine ⟨i1, i2, ?_, ?_, ?_⟩
        · intro a ha
          rw [i3 a ha]
          simp [Heap.setRoot, Heap.setTrie, Function.update, ha]
        · rw [i4]; simp [Heap.setRoot, Heap.setTrie]
        · rw [i5]; simp [Heap.setRoot, Heap.setTrie]
      | some e =>
        simp only
        refine ⟨trivial, trivial, ?_, trivial, ?_⟩
        · intro a ha
          simp [Heap.setRoot, Heap.setTrie, Function.update, ha]
        · simp [Heap.setRoot, Heap.setTrie]

theorem contract.mutate_frame {τ σ : Type} (E : Env τ σ) (ms : List Mutation) :
    ∀ (c : contract) (h : Heap τ σ),
      (contract.mutate E c ms h).1.Account = c.Account ∧
      ∀ a : Nat, a ≠ c.Account → (contract.mutate E c ms h).2.accounts a = h.accounts a := by
  induction ms with
  | nil => intro c h; simp [contract.mutate]
  | cons m rest ih =>
    intro c h
    cases m with
    | setState k v =>
      obtain ⟨i1, i2⟩ := ih (contract.SetState E c k v h).2.1 (contract.SetState E c k v h).2.2
      have hA : (contract.SetState E c k v h).2.1.Account = c.Account := rfl
      refine ⟨by simpa [contract.mutate] using i1.trans hA, ?_⟩
      intro a ha
      simp only [contract.mutate]
      rw [i2 a (by rw [hA]; exact ha)]
      simp [contract.SetState, Heap.setRoot, Heap.setTrie, Function.update, ha]
    | setCode hash code =>
      obtain ⟨i1, i2⟩ := ih (contract.SetCode c hash code h).1 (contract.SetCode c hash code h).2
      have hA : (contract.SetCode c hash code h).1.Account = c.Account := rfl
      refine ⟨by simpa [contract.mutate] using i1.trans hA, ?_⟩
      intro a ha
      simp only [contract.mutate]
      rw [i2 a (by rw [hA]; exact ha)]
      simp [contract.SetCode, Heap.setCodeHash, Function.update, ha]

theorem contract.GetState_congr {τ σ : Type} (E : Env τ σ) (c1 c2 : contract) (k : Hash32B)
    (h : Heap τ σ) (ht : c1.trie = c2.trie) :
    (contract.GetState E c1 k h).1 = (contract.GetState E c2 k h).1 := by
  simp only [contract.GetState, ht]
  cases (E.trie.Get (h.tries c2.trie) k.val).2 <;> rfl

theorem contract.GetState_after_SetState {τ σ : Type} (E : Env τ σ) (hlaw : E.trie.UpsertGet)
    (c : contract) (k : Hash32B) (v : GoBytes) (h : Heap τ σ)
    (hok : (contract.SetState E c k v h).1 = none) :
    (contract.GetState E (contract.SetState E c k v h).2.1 k
      (contract.SetState E c k v h).2.2).1 = (v, none) := by
  simp only [contract.SetState] at hok
  have hget := hlaw (h.tries c.trie) k.val v (E.trie.Upsert (h.tries c.trie) k.val v).2
    (Prod.ext hok rfl)
  simp [contract.SetState, contract.GetState, Heap.setTrie, Heap.setRoot, hget]

theorem memTrie_RootReset : memTrie.RootReset := by
  intro t r hok
  have e1 : memTrie.SetRootHash = MemTrie.SetRootHash := rfl
  simp only [e1, MemTrie.SetRootHash] at hok ⊢
  cases hl : t.nodes.lookup r with
  | none => simp [hl] at hok
  | some m => simp [memTrie]

theorem refEnv_RoundTrip32 : refEnv.RoundTrip32 := by
  intro x
  apply Subtype.ext
  simp [refEnv, refBytesTo32B, x.property]

theorem contract.GetState_snd {τ σ : Type} (E : Env τ σ) (c : contract) (k : Hash32B)
    (h : Heap τ σ) : (contract.GetState E c k h).2 = (c, h) := by
  simp only [contract.GetState]
  cases (E.trie.Get (h.tries c.trie) k.val).2 <;> rfl

theorem contract.GetCode_frame {τ σ : Type} (E : Env τ σ) (c : contract) (h : Heap τ σ) :
    (contract.GetCode E c h).2.1 = c ∧
    (contract.GetCode E c h).2.2.accounts = h.accounts ∧
    (contract.GetCode E c h).2.2.tries = h.tries ∧
    (contract.GetCode E c h).2.2.stores = h.stores ∧
    (contract.GetCode E c h).2.2.next = h.next := by
  simp only [contract.GetCode]
  cases c.code <;> simp [Heap.record]

theorem contract.Commit_frame {τ σ : Type} (E : Env τ σ) (c : contract) (h : Heap τ σ) :
    (contract.Commit E c h).2.1.trie = c.trie ∧
    (contract.Commit E c h).2.1.Account = c.Account ∧
    (contract.Commit E c h).2.1.dao = c.dao ∧
    (contract.Commit E c h).2.1.code = c.code ∧
    (contract.Commit E c h).2.1.dirtyState = false ∧
    (contract.Commit E c h).2.2.tries = h.tries ∧
    (contract.Commit E c h).2.2.next = h.next ∧
    (∀ a : Nat, ((contract.Commit E c h).2.2.accounts a).CodeHash = (h.accounts a).CodeHash) ∧
    (∀ a : Nat, a ≠ c.Account → (contract.Commit E c h).2.2.accounts a = h.accounts a) ∧
    contract.RootHash (contract.Commit E c h).2.1 (contract.Commit E c h).2.2 =
      (if c.dirtyState then E.BytesTo32B (E.trie.RootHash (h.tries c.trie))
       else contract.RootHash c h) := by
  have hupd : ∀ (r : Hash32B) (a : Nat),
      ((h.setRoot c.Account r).accounts a).CodeHash = (h.accounts a).CodeHash := by
    intro r a
    by_cases ha : a = c.Account
    · simp [Heap.setRoot, ha]
    · simp [Heap.setRoot, Function.update, ha]
  have hne : ∀ (r : Hash32B) (a : Nat), a ≠ c.Account →
      (h.setRoot c.Account r).accounts a = h.accounts a := by
    intro r a ha
    simp [Heap.setRoot, Function.update, ha]
  cases hs : c.dirtyState <;> cases hc : c.dirtyCode
  · simp [contract.Commit, hs, hc, contract.RootHash]
  · simp only [contract.Commit, hs, hc, Bool.false_eq_true, if_false, if_true]
    cases (E.dao.Put (h.stores c.dao) CodeKVNameSpace (h.accounts c.Account).CodeHash
      c.code).1 <;> simp [hs, contract.RootHash, Heap.setStore, Heap.record]
  · have hC : contract.Commit E c h = (none, { c with dirtyState := false },
        h.setRoot c.Account (E.BytesTo32B (E.trie.RootHash (h.tries c.trie)))) := by
      simp [contract.Commit, hs, hc]
    rw [hC]
    refine ⟨rfl, rfl, rfl, rfl, rfl, rfl, rfl, hupd _, hne _, ?_⟩
    simp [contract.RootHash, Heap.setRoot]
  · have hC : (contract.Commit E c h).2.1.trie = c.trie ∧
        (contract.Commit E c h).2.1.Account = c.Account ∧
        (contract.Commit E c h).2.1.dao = c.dao ∧
        (contract.Commit E c h).2.1.code = c.code ∧
        (contract.Commit E c h).2.1.dirtyState = false ∧
        (contract.Commit E c h).2.2.tries = h.tries ∧
        (contract.Commit E c h).2.2.next = h.next ∧
        (contract.Commit E c h).2.2.accounts =
          (h.setRoot c.Account (E.BytesTo32B (E.trie.RootHash (h.tries c.trie)))).accounts := by
      simp only [contract.Commit, hs, hc, Bool.false_eq_true, if_false, if_true]
      cases (E.dao.Put ((h.setRoot c.Account (E.BytesTo32B (E.trie.RootHash
        (h.tries c.trie)))).stores c.dao) CodeKVNameSpace
        ((h.setRoot c.Account (E.BytesTo32B (E.trie.RootHash
        (h.tries c.trie)))).accounts c.Account).CodeHash c.code).1 <;>
        simp [Heap.setRoot, Heap.setStore, Heap.record]
    obtain ⟨g1, g2, g3, g4, g5, g6, g7, g8⟩ := hC
    refine ⟨g1, g2, g3, g4, g5, g6, g7, ?_, ?_, ?_⟩
    · intro a; rw [g8]; exact hupd _ a
    · intro a ha; rw [g8]; exact hne _ a ha
    · simp [contract.RootHash, g2, g8, Heap.setRoot]

theorem contract.Snapshot_frame {τ σ : Type} (c : contract) (h : Heap τ σ) :
    (contract.Snapshot c h).2.1 = c ∧
    (contract.Snapshot c h).1.trie = c.trie ∧
    (contract.Snapshot c h).1.dao = c.dao ∧
    (contract.Snapshot c h).1.code = c.code ∧
    (contract.Snapshot c h).1.dirtyCode = c.dirtyCode ∧
    (contract.Snapshot c h).1.dirtyState = c.dirtyState ∧
    (contract.Snapshot c h).2.2.tries = h.tries ∧
    (contract.Snapshot c h).2.2.stores = h.stores ∧
    (contract.Snapshot c h).2.2.accounts (contract.Snapshot c h).1.Account =
      h.accounts c.Account ∧
    (contract.Snapshot c h).2.2.accounts c.Account = h.accounts c.Account := by
  refine ⟨rfl, rfl, rfl, rfl, rfl, rfl, rfl, rfl, ?_, ?_⟩
  · simp [contract.Snapshot, Account.Clone]
  · by_cases hn : c.Account = h.next
    · simp [contract.Snapshot, Account.Clone, hn]
    · simp [contract.Snapshot, Account.Clone, Function.update, hn]

theorem contract.step_RootSynced {τ σ : Type} (E : Env τ σ) (hreset : E.trie.RootReset)
    (h32 : E.RoundTrip32) (c : contract) (op : Op) (h : Heap τ σ)
    (hs : contract.RootSynced E c h)
    (hload : op = Op.loadRoot → (contract.LoadRoot E c h).1 ≠ none →
      E.trie.RootHash ((contract.LoadRoot E c h).2.2.tries c.trie) =
        E.trie.RootHash (h.tries c.trie)) :
    contract.RootSynced E (contract.step E c op h).2.1 (contract.step E c op h).2.2 := by
  unfold contract.RootSynced at hs ⊢
  cases op with
  | getState k =>
    simp only [contract.step, contract.GetState_snd]
    exact hs
  | setState k v =>
    simp [contract.step, contract.SetState, contract.RootHash, Heap.setRoot, Heap.setTrie]
  | getCode =>
    obtain ⟨f1, f2, f3, -, -⟩ := contract.GetCode_frame E c h
    simp only [contract.step, contract.RootHash, f1, f2, f3]
    exact hs
  | setCode hash code =>
    simp only [contract.step, contract.SetCode, contract.RootHash, Heap.setCodeHash,
      Function.update_same]
    exact hs
  | commit =>
    obtain ⟨f1, -, -, -, -, f6, -, -, -, f10⟩ := contract.Commit_frame E c h
    simp only [contract.step, f1, f6, f10]
    cases c.dirtyState
    · simpa using hs
    · simp
  | loadRoot =>
    cases hl : (contract.LoadRoot E c h).1 with
    | none =>
      have hr := hreset (h.tries c.trie) (h.accounts c.Account).Root.val hl
      simp only [contract.step, contract.LoadRoot, contract.RootHash, Heap.setTrie,
        Function.update_same, hr, h32 _]
    | some e =>
      have hk := hload rfl (by simp [hl])
      simp only [contract.LoadRoot, Heap.setTrie, Function.update_same] at hk
      simp only [contract.step, contract.LoadRoot, contract.RootHash, Heap.setTrie,
        Function.update_same, hk]
      exact hs
  | snapshot keep =>
    obtain ⟨f1, f2, -, -, -, -, f7, -, f9, f10⟩ := contract.Snapshot_frame c h
    cases keep
    · simp only [contract.step, contract.RootHash, Bool.false_eq_true, if_false, f2, f7, f9]
      exact hs
    · simp only [contract.step, contract.RootHash, if_true, f1, f7, f10]
      exact hs

theorem contract.step_dirtyState {τ σ : Type} (E : Env τ σ) (c : contract) (op : Op)
    (h : Heap τ σ) (hd : (contract.step E c op h).2.1.dirtyState = true) :
    op.syncs = true ∨ c.dirtyState = true := by
  cases op with
  | getState k =>
    simp only [contract.step, contract.GetState_snd] at hd
    exact Or.inr hd
  | setState k v => exact Or.inl rfl
  | getCode =>
    rw [show (contract.step E c Op.getCode h).2.1 = (contract.GetCode E c h).2.1 from rfl,
      (contract.GetCode_frame E c h).1] at hd
    exact Or.inr hd
  | setCode hash code => exact Or.inr hd
  | commit =>
    have := (contract.Commit_frame E c h).2.2.2.2.1
    rw [show (contract.step E c Op.commit h).2.1 = (contract.Commit E c h).2.1 from rfl,
      this] at hd
    cases hd
  | loadRoot => exact Or.inl rfl
  | snapshot keep =>
    cases keep
    · exact Or.inr hd
    · exact Or.inr hd

theorem contract.step_alloc {τ σ : Type} (E : Env τ σ) (c : contract) (op : Op)
    (h : Heap τ σ) (halloc : c.Account < h.next) :
    (contract.step E c op h).2.1.Account < (contract.step E c op h).2.2.next := by
  cases op with
  | getState k =>
    simp only [contract.step, contract.GetState_snd]
    exact halloc
  | setState k v => exact halloc
  | getCode =>
    obtain ⟨f1, -, -, -, f5⟩ := contract.GetCode_frame E c h
    simp only [contract.step, f1, f5]
    exact halloc
  | setCode hash code => exact halloc
  | commit =>
    obtain ⟨-, f2, -, -, -, -, f7, -, -, -⟩ := contract.Commit_frame E c h
    simp only [contract.step, f2, f7]
    exact halloc
  | loadRoot => exact halloc
  | snapshot keep =>
    cases keep
    · simp [contract.step, contract.Snapshot, Account.Clone]
    · simp only [contract.step, contract.Snapshot, Account.Clone, if_true]
      omega

theorem contract.step_other_frame {τ σ : Type} (E : Env τ σ) (c d : contract) (op : Op)
    (h : Heap τ σ) (hacc : d.Account ≠ c.Account)
    (htrie : op.syncs = true → d.trie ≠ c.trie) (halloc : c.Account < h.next) :
    (contract.step E d op h).2.2.tries c.trie = h.tries c.trie ∧
    (contract.step E d op h).2.2.accounts c.Account = h.accounts c.Account ∧
    h.next ≤ (contract.step E d op h).2.2.next := by
  cases op with
  | getState k =>
    simp only [contract.step, contract.GetState_snd]
    exact ⟨trivial, trivial, le_refl _⟩
  | setState k v =>
    have ht := htrie rfl
    simp [contract.step, contract.SetState, Heap.setRoot, Heap.setTrie, Function.update,
      Ne.symm ht, Ne.symm hacc]
  | getCode =>
    obtain ⟨-, f2, f3, -, f5⟩ := contract.GetCode_frame E d h
    simp only [contract.step, f2, f3, f5]
    exact ⟨trivial, trivial, le_refl _⟩
  | setCode hash code =>
    simp [contract.step, contract.SetCode, Heap.setCodeHash, Function.update, Ne.symm hacc]
  | commit =>
    obtain ⟨-, -, -, -, -, f6, f7, -, f9, -⟩ := contract.Commit_frame E d h
    simp only [contract.step, f6, f7]
    exact ⟨trivial, f9 c.Account (Ne.symm hacc), le_refl _⟩
  | loadRoot =>
    have ht := htrie rfl
    simp [contract.step, contract.LoadRoot, Heap.setTrie, Function.update, Ne.symm ht]
  | snapshot keep =>
    have hn : c.Account ≠ h.next := by omega
    simp [contract.step, contract.Snapshot, Account.Clone, Function.update, hn]

theorem contract.step_own_synced {τ σ : Type} (E : Env τ σ) (hreset : E.trie.RootReset)
    (h32 : E.RoundTrip32) (c : contract) (op : Op) (h : Heap τ σ)
    (hpre : op.syncs = true ∨ (c.dirtyState = true → contract.RootSynced E c h))
    (hok : contract.loadOk E c op h = true) :
    (contract.step E c op h).2.1.dirtyState = true →
      contract.RootSynced E (contract.step E c op h).2.1 (contract.step E c op h).2.2 := by
  intro hd
  have hload : op = Op.loadRoot → (contract.LoadRoot E c h).1 ≠ none →
      E.trie.RootHash ((contract.LoadRoot E c h).2.2.tries c.trie) =
        E.trie.RootHash (h.tries c.trie) := by
    intro hop hne
    subst hop
    simp only [contract.loadOk, Option.isNone_iff_eq_none] at hok
    exact absurd hok hne
  by_cases hset : ∃ (k : Hash32B) (v : GoBytes), op = Op.setState k v
  · obtain ⟨k, v, rfl⟩ := hset
    simp [contract.RootSynced, contract.step, contract.SetState, contract.RootHash,
      Heap.setRoot, Heap.setTrie]
  · by_cases hl : op = Op.loadRoot
    · subst hl
      have hl1 : (contract.LoadRoot E c h).1 = none := by
        simpa [contract.loadOk] using hok
      have hr := hreset (h.tries c.trie) (h.accounts c.Account).Root.val hl1
      simp only [contract.RootSynced, contract.step, contract.LoadRoot, contract.RootHash,
        Heap.setTrie, Function.update_same, hr, h32 _]
    · have hns : op.syncs = false := by
        cases op with
        | setState k v => exact absurd ⟨k, v, rfl⟩ hset
        | loadRoot => exact absurd rfl hl
        | getState k => rfl
        | getCode => rfl
        | setCode hash code => rfl
        | commit => rfl
        | snapshot keep => rfl
      have hinv : c.dirtyState = true → contract.RootSynced E c h := by
        rcases hpre with hs | hi
        · rw [hns] at hs; cases hs
        · exact hi
      rcases contract.step_dirtyState E c op h hd with hsy | hc
      · rw [hns] at hsy; cases hsy
      · exact contract.step_RootSynced E hreset h32 c op h (hinv hc) hload

theorem contract.runAmong_synced {τ σ : Type} (E : Env τ σ) (hreset : E.trie.RootReset)
    (h32 : E.RoundTrip32) (calls : List Call) :
    ∀ (c : contract) (h : Heap τ σ), c.Account < h.next →
      (Call.startsSynced calls = true ∨
        (c.dirtyState = true → contract.RootSynced E c h)) →
      contract.undisturbed E c calls h = true →
      ((contract.runAmong E c calls h).1.dirtyState = true →
        contract.RootSynced E (contract.runAmong E c calls h).1
          (contract.runAmong E c calls h).2) := by
  induction calls with
  | nil =>
    intro c h _ hpre _
    rcases hpre with hs | hi
    · cases hs
    · exact hi
  | cons call rest ih =>
    intro c h halloc hpre hq
    cases call with
    | own op =>
      simp only [contract.undisturbed, Bool.and_eq_true] at hq
      simp only [contract.runAmong]
      refine ih _ _ (contract.step_alloc E c op h halloc) (Or.inr ?_) hq.2
      exact contract.step_own_synced E hreset h32 c op h hpre hq.1
    | other d op =>
      simp only [contract.undisturbed, Bool.and_eq_true, decide_eq_true_eq, Bool.or_eq_true,
        Bool.not_eq_true'] at hq
      obtain ⟨⟨hacc, htr⟩, hrest⟩ := hq
      have htrie : op.syncs = true → d.trie ≠ c.trie := by
        intro hs
        rcases htr with hf | ht
        · rw [hs] at hf; cases hf
        · exact ht
      obtain ⟨g1, g2, g3⟩ := contract.step_other_frame E c d op h hacc htrie halloc
      have hinv : c.dirtyState = true → contract.RootSynced E c h := by
        rcases hpre with hs | hi
        · cases hs
        · exact hi
      simp only [contract.runAmong]
      refine ih _ _ (by omega) (Or.inr ?_) hrest
      intro hd
      have := hinv hd
      simp only [contract.RootSynced, contract.RootHash] at this ⊢
      rw [g1, g2]
      exact this

theorem contract.Commit_clean {τ σ : Type} (E : Env τ σ) (c : contract) (h : Heap τ σ)
    (hc : c.dirtyCode = false) :
    (contract.Commit E c h).1 = none ∧
    (contract.Commit E c h).2.1.dirtyCode = false ∧
    (contract.Commit E c h).2.2.stores = h.stores ∧
    (contract.Commit E c h).2.2.log = h.log := by
  cases hs : c.dirtyState <;> simp [contract.Commit, hs, hc, Heap.setRoot]

theorem contract.GetCode_congr {τ σ : Type} (E : Env τ σ) (c c1 : contract) (h h1 : Heap τ σ)
    (hcode : c1.code = c.code) (hdao : c1.dao = c.dao)
    (hhash : (h1.accounts c1.Account).CodeHash = (h.accounts c.Account).CodeHash)
    (hst : c.code = none → h1.stores = h.stores) :
    (contract.GetCode E c1 h1).1 = (contract.GetCode E c h).1 := by
  simp only [contract.GetCode, hcode]
  cases hcc : c.code with
  | some b => rfl
  | none => simp only [hdao, hhash, hst hcc]

theorem contract.step_code {τ σ : Type} (E : Env τ σ) (c : contract) (op : Op) (h : Heap τ σ)
    (hflag : c.code = none → c.dirtyCode = false)
    (hop : ∀ (hash : Hash32B) (code : GoBytes), op ≠ Op.setCode hash code) :
    (contract.step E c op h).2.1.code = c.code ∧
    (contract.step E c op h).2.1.dao = c.dao ∧
    ((contract.step E c op h).2.2.accounts (contract.step E c op h).2.1.Account).CodeHash =
      (h.accounts c.Account).CodeHash ∧
    (c.code = none → (contract.step E c op h).2.2.stores = h.stores) ∧
    ((contract.step E c op h).2.1.code = none →
      (contract.step E c op h).2.1.dirtyCode = false) := by
  cases op with
  | getState k =>
    simp only [contract.step, contract.GetState_snd]
    exact ⟨trivial, trivial, trivial, fun _ => trivial, hflag⟩
  | setState k v =>
    refine ⟨rfl, rfl, ?_, fun _ => rfl, hflag⟩
    simp [contract.step, contract.SetState, Heap.setRoot, Heap.setTrie]
  | getCode =>
    obtain ⟨f1, f2, -, f4, -⟩ := contract.GetCode_frame E c h
    simp only [contract.step, f1, f2, f4]
    exact ⟨trivial, trivial, trivial, fun _ => trivial, hflag⟩
  | setCode hash code => exact absurd rfl (hop hash code)
  | commit =>
    obtain ⟨-, f2, f3, f4, -, -, -, f8, -, -⟩ := contract.Commit_frame E c h
    simp only [contract.step, f2, f3, f4, f8]
    refine ⟨trivial, trivial, trivial, ?_, ?_⟩
    · intro hn
      exact (contract.Commit_clean E c h (hflag hn)).2.2.1
    · intro hn
      exact (contract.Commit_clean E c h (hflag hn)).2.1
  | loadRoot => exact ⟨rfl, rfl, rfl, fun _ => rfl, hflag⟩
  | snapshot keep =>
    obtain ⟨-, -, -, -, -, -, -, -, f9, f10⟩ := contract.Snapshot_frame c h
    cases keep
    · refine ⟨rfl, rfl, ?_, fun _ => rfl, hflag⟩
      simp only [contract.step, Bool.false_eq_true, if_false, f9]
    · refine ⟨rfl, rfl, ?_, fun _ => rfl, hflag⟩
      simp only [contract.step, if_true]
      rw [(contract.Snapshot_frame c h).1, f10]

theorem contract.step_CodeHashed {τ σ : Type} (E : Env τ σ) (H : Bytes → Hash32B)
    (c : contract) (op : Op) (h : Heap τ σ)
    (hflag : c.code = none → c.dirtyCode = false) (hinv : contract.CodeHashed E H c h)
    (hop : op.hashedBy H) :
    ((contract.step E c op h).2.1.code = none →
      (contract.step E c op h).2.1.dirtyCode = false) ∧
    contract.CodeHashed E H (contract.step E c op h).2.1 (contract.step E c op h).2.2 := by
  by_cases hset : ∃ (hash : Hash32B) (code : GoBytes), op = Op.setCode hash code
  · obtain ⟨hash, code, rfl⟩ := hset
    cases code with
    | none => exact absurd hop (by simp [Op.hashedBy])
    | some b =>
      have hh : hash = H b := hop
      refine ⟨fun hn => by simp [contract.step, contract.SetCode] at hn, ?_⟩
      intro b1 hb1
      simp only [contract.step, contract.SetCode, contract.GetCode, Prod.mk.injEq,
        and_true] at hb1
      subst hb1
      simp [contract.step, contract.SetCode, Heap.setCodeHash, hh]
  · have hop1 : ∀ (hash : Hash32B) (code : GoBytes), op ≠ Op.setCode hash code :=
      fun hash code he => hset ⟨hash, code, he⟩
    obtain ⟨g1, g2, g3, g4, g5⟩ := contract.step_code E c op h hflag hop1
    refine ⟨g5, ?_⟩
    intro b hb
    rw [contract.GetCode_congr E c _ h _ g1 g2 g3 g4] at hb
    rw [g3]
    exact hinv b hb

theorem contract.run_CodeHashed {τ σ : Type} (E : Env τ σ) (H : Bytes → Hash32B)
    (ops : List Op) :
    ∀ (c : contract) (h : Heap τ σ), (c.code = none → c.dirtyCode = false) →
      contract.CodeHashed E H c h → (∀ op ∈ ops, Op.hashedBy H op) →
      contract.CodeHashed E H (contract.run E c ops h).1 (contract.run E c ops h).2 := by
  induction ops with
  | nil => intro c h _ hinv _; exact hinv
  | cons op rest ih =>
    intro c h hflag hinv hops
    obtain ⟨k1, k2⟩ := contract.step_CodeHashed E H c op h hflag hinv
      (hops op (List.mem_cons_self _ _))
    exact ih _ _ k1 k2 (fun o ho => hops o (List.mem_cons_of_mem _ ho))

theorem refBufTrie_ContentAddressed : refBufTrie.ContentAddressed refExt refStored := by
  refine ⟨?_, ?_, ?_⟩
  · intro b t k v r m hr
    exact MemTrie.Upsert_nodes { root := t.root, nodes := b, fault := t.fault } k v r m hr
  · intro b b1 t hext hst
    simp only [refStored, Option.isSome_iff_exists] at hst ⊢
    obtain ⟨m, hm⟩ := hst
    exact ⟨m, hext _ _ hm⟩
  · intro b b1 t k hext hst
    simp only [refStored, Option.isSome_iff_exists] at hst
    obtain ⟨m, hm⟩ := hst
    simp only [refBufTrie, MemTrie.Get, hm, hext _ _ hm]

/-! ## Theorems on the contract -/

/-- C1 (write visibility): over a trie whose read after a successful write of the same
key returns the written value, if `SetState(k, v)` returns no error then `GetState(k)`
on the same instance, with no `Commit` in between, returns `v` with no error. -/
theorem C1_write_visibility {τ σ : Type} (E : Env τ σ) (hlaw : E.trie.UpsertGet)
    (c : contract) (k : Hash32B) (v : GoBytes) (h : Heap τ σ)
    (hok : (contract.SetState E c k v h).1 = none) :
    (contract.GetState E (contract.SetState E c k v h).2.1 k
      (contract.SetState E c k v h).2.2).1 = (v, none) := by
  simp only [contract.SetState] at hok
  have hget := hlaw (h.tries c.trie) k.val v (E.trie.Upsert (h.tries c.trie) k.val v).2
    (Prod.ext hok rfl)
  simp [contract.SetState, contract.GetState, Heap.setTrie, Heap.setRoot, hget]

/-- Witness of C1 on the reference trie: slot 1 written with the byte 7 is read back. -/
theorem C1_write_visibility_witness :
    refEnv.trie.UpsertGet ∧
    (contract.SetState refEnv (freshContract 0 0 0) (hashOf 1) (some [7])
      (refHeap zeroAccount MemTrie.empty ⟨[], []⟩ 1)).1 = none ∧
    (contract.GetState refEnv
      (contract.SetState refEnv (freshContract 0 0 0) (hashOf 1) (some [7])
        (refHeap zeroAccount MemTrie.empty ⟨[], []⟩ 1)).2.1 (hashOf 1)
      (contract.SetState refEnv (freshContract 0 0 0) (hashOf 1) (some [7])
        (refHeap zeroAccount MemTrie.empty ⟨[], []⟩ 1)).2.2).1 = (some [7], none) :=
  ⟨memTrie_UpsertGet, by decide,
    C1_write_visibility refEnv memTrie_UpsertGet (freshContract 0 0 0) (hashOf 1) (some [7])
      (refHeap zeroAccount MemTrie.empty ⟨[], []⟩ 1) (by decide)⟩

/-- C2 (snapshot/revert): let `C` be a contract whose storage root is `R0`, the root
the shared trie is at, and `S = C.Snapshot()`.  After any sequence of successful
`SetState` calls on `C`, a successful `LoadRoot()` on `S` makes every subsequent
`GetState(k)` on `S` return exactly what `GetState(k)` returned on `C` at the time of the
snapshot, over a content-addressed trie in which earlier roots remain retrievable.
`GetState` leaves the snapshot and the heap as they are, so this holds for each later
read as well. -/
theorem C2_snapshot_revert {τ σ : Type} (E : Env τ σ) (hlaw : E.trie.Retrievable)
    (C : contract) (h0 : Heap τ σ) (kvs : List (Hash32B × GoBytes)) :
    let S := (contract.Snapshot C h0).1
    let h1 := (contract.Snapshot C h0).2.2
    let h2 := (contract.SetStates E C kvs h1).2.2
    let S1 := (contract.LoadRoot E S h2).2.1
    let h3 := (contract.LoadRoot E S h2).2.2
    C.Account < h0.next →
    (contract.RootHash C h0).val = E.trie.RootHash (h0.tries C.trie) →
    (contract.SetStates E C kvs h1).1 = none →
    (contract.LoadRoot E S h2).1 = none →
    ∀ k : Hash32B,
      (contract.GetState E S1 k h3).1 = (contract.GetState E C k h0).1 ∧
      (contract.GetState E S1 k h3).2.1 = S1 ∧
      (contract.GetState E S1 k h3).2.2 = h3 := by
  intro S h1 h2 S1 h3 hfresh hroot hsets hload k
  obtain ⟨-, -, hacc, herr, htrie⟩ := contract.SetStates_spec E kvs C h1
  have hne : h0.next ≠ C.Account := by omega
  have hSroot : (h2.accounts S.Account).Root.val = E.trie.RootHash (h0.tries C.trie) := by
    have : h2.accounts S.Account = h0.accounts C.Account := by
      show (contract.SetStates E C kvs h1).2.2.accounts h0.next = _
      rw [hacc h0.next hne]
      simp [h1, contract.Snapshot, Account.Clone]
    rw [this]; exact hroot
  have ht1 : h1.tries C.trie = h0.tries C.trie := by
    simp [h1, contract.Snapshot, Account.Clone]
  rw [ht1] at herr htrie
  have hSt : S.trie = C.trie := by simp [S, contract.Snapshot]
  have hups := herr ▸ hsets
  have hload1 : (E.trie.SetRootHash
      (Trie.upserts E.trie (h0.tries C.trie) (kvs.map (fun kv => (kv.1.val, kv.2)))).2
      (E.trie.RootHash (h0.tries C.trie))).1 = none := by
    have := hload
    simp only [contract.LoadRoot, hSt] at this
    rw [← hSroot, ← htrie]; exact this
  have hget := hlaw (h0.tries C.trie) _ hups hload1 k.val
  have h3t : h3.tries S1.trie = (E.trie.SetRootHash
      (Trie.upserts E.trie (h0.tries C.trie) (kvs.map (fun kv => (kv.1.val, kv.2)))).2
      (E.trie.RootHash (h0.tries C.trie))).2 := by
    simp only [h3, S1, contract.LoadRoot, hSt, Heap.setTrie, Function.update_same]
    rw [← hSroot, ← htrie]
  refine ⟨?_, ?_, ?_⟩
  · simp only [contract.GetState, h3t, hget]
    cases (E.trie.Get (h0.tries C.trie) k.val).2 <;> rfl
  · simp only [contract.GetState]
    cases (E.trie.Get (h3.tries S1.trie) k.val).2 <;> rfl
  · simp only [contract.GetState]
    cases (E.trie.Get (h3.tries S1.trie) k.val).2 <;> rfl

/-- Witness of C2 on the reference trie: slot `exKey` holds `[1]` when the snapshot is
taken, the contract then overwrites it with `[2]`, and after `LoadRoot` the snapshot
reads `[1]` again. -/
theorem C2_snapshot_revert_witness :
    refEnv.trie.Retrievable ∧
    exC.Account < exH.next ∧
    (contract.RootHash exC exH).val = refEnv.trie.RootHash (exH.tries exC.trie) ∧
    (contract.SetStates refEnv exC [(exKey, some [2])] (contract.Snapshot exC exH).2.2).1 = none ∧
    (contract.LoadRoot refEnv (contract.Snapshot exC exH).1
      (contract.SetStates refEnv exC [(exKey, some [2])]
        (contract.Snapshot exC exH).2.2).2.2).1 = none ∧
    (contract.GetState refEnv exC exKey exH).1 = (some [1], none) ∧
    (contract.GetState refEnv exC exKey
      (contract.SetStates refEnv exC [(exKey, some [2])]
        (contract.Snapshot exC exH).2.2).2.2).1 = (some [2], none) ∧
    (contract.GetState refEnv
      (contract.LoadRoot refEnv (contract.Snapshot exC exH).1
        (contract.SetStates refEnv exC [(exKey, some [2])]
          (contract.Snapshot exC exH).2.2).2.2).2.1 exKey
      (contract.LoadRoot refEnv (contract.Snapshot exC exH).1
        (contract.SetStates refEnv exC [(exKey, some [2])]
          (contract.Snapshot exC exH).2.2).2.2).2.2).1 =
      (contract.GetState refEnv exC exKey exH).1 :=
  ⟨memTrie_Retrievable, by decide, by decide, by decide, by decide, by decide, by decide,
    (C2_snapshot_revert refEnv memTrie_Retrievable exC exH [(exKey, some [2])]
      (by decide) (by decide) (by decide) (by decide) exKey).1⟩

/-- Counterexample to C3 as stated: with the nil byte sequence, `SetCode(h, nil)` leaves
the cache empty, so `GetCode()` reads the store, here returning the bytes `[9]` stored
under `h` instead of nil, and the read appears in the log of store calls. -/
theorem C3_counterexample :
    (contract.GetCode refEnv
      (contract.SetCode (freshContract 0 0 0) (hashOf 1) none exHeapCode).1
      (contract.SetCode (freshContract 0 0 0) (hashOf 1) none exHeapCode).2).1
      = (some [9], none) ∧
    (contract.SetCode (freshContract 0 0 0) (hashOf 1) none exHeapCode).2.log = [] ∧
    (contract.GetCode refEnv
      (contract.SetCode (freshContract 0 0 0) (hashOf 1) none exHeapCode).1
      (contract.SetCode (freshContract 0 0 0) (hashOf 1) none exHeapCode).2).2.2.log
      = [Event.daoGet 0 "Code" (hashOf 1).val] := by
  decide

/-- C3 (code cache-first), amended: for every contract, hash `h` and non-nil byte
sequence `b` (the empty one included), after `SetCode(h, b)` the call `GetCode()` returns
`b` with no error and performs no store call (contract and heap, log included, are as
`SetCode` left them), whatever the store contains. -/
theorem C3_code_cache_first {τ σ : Type} (E : Env τ σ) (c : contract) (hash : Hash32B)
    (b : Bytes) (h : Heap τ σ) :
    contract.GetCode E (contract.SetCode c hash (some b) h).1
        (contract.SetCode c hash (some b) h).2 =
      ((some b, none), (contract.SetCode c hash (some b) h).1,
        (contract.SetCode c hash (some b) h).2) := by
  simp [contract.GetCode, contract.SetCode]

/-- C4 (code durability and deduplication): over a store whose read after a successful
write returns the written value, after `A.SetCode(h, b)` with non-nil `b` and a
`Commit()` that returns no error, the store of `A` holds `b` under namespace "Code" and
key `h`, and any contract `B` over the same store with an empty code cache and code hash
`h` gets `b` from `GetCode()`; before that `Commit`, such a `B` gets what the store held
under `h` before `A.SetCode`, not the write made by `A`. -/
theorem C4_code_durability {τ σ : Type} (E : Env τ σ) (hlaw : E.dao.PutGet)
    (A B : contract) (hash : Hash32B) (b : Bytes) (h0 : Heap τ σ) :
    let A1 := (contract.SetCode A hash (some b) h0).1
    let h1 := (contract.SetCode A hash (some b) h0).2
    let h2 := (contract.Commit E A1 h1).2.2
    (contract.Commit E A1 h1).1 = none →
    B.dao = A.dao →
    B.code = none →
    (h1.accounts B.Account).CodeHash = hash.val →
    E.dao.Get (h2.stores A.dao) CodeKVNameSpace hash.val = (some b, none) ∧
    (h2.accounts B.Account).CodeHash = hash.val ∧
    (contract.GetCode E B h2).1 = (some b, none) ∧
    (contract.GetCode E B h1).1 = E.dao.Get (h0.stores A.dao) CodeKVNameSpace hash.val := by
  intro A1 h1 h2 hok hdao hcode hhash
  have hA1 : A1 = { A with code := some b, dirtyCode := true } := rfl
  have hacc1 : (h1.accounts A.Account).CodeHash = hash.val := by
    simp [h1, contract.SetCode, Heap.setCodeHash]
  have hst1 : h1.stores = h0.stores := rfl
  -- the heap between the two halves of Commit
  obtain ⟨hm, hms, hmc, hcommit⟩ : ∃ hm : Heap τ σ, hm.stores = h1.stores ∧
      (∀ a, (hm.accounts a).CodeHash = (h1.accounts a).CodeHash) ∧
      contract.Commit E A1 h1 =
        (match (E.dao.Put (hm.stores A.dao) CodeKVNameSpace (hm.accounts A.Account).CodeHash
            (some b)).1 with
          | some err => (some (Error.wrapf err
              "Failed to store code for new contract, codeHash %x"
              [(hm.accounts A.Account).CodeHash]),
              { A1 with dirtyState := false },
              (hm.setStore A.dao (E.dao.Put (hm.stores A.dao) CodeKVNameSpace
                (hm.accounts A.Account).CodeHash (some b)).2).record
                (Event.daoPut A.dao CodeKVNameSpace (hm.accounts A.Account).CodeHash (some b)))
          | none => (none, { A1 with dirtyState := false, dirtyCode := false },
              (hm.setStore A.dao (E.dao.Put (hm.stores A.dao) CodeKVNameSpace
                (hm.accounts A.Account).CodeHash (some b)).2).record
                (Event.daoPut A.dao CodeKVNameSpace (hm.accounts A.Account).CodeHash
                  (some b)))) := by
    by_cases hd : A.dirtyState = true
    · refine ⟨h1.setRoot A.Account (E.BytesTo32B (E.trie.RootHash (h1.tries A.trie))),
        rfl, ?_, ?_⟩
      · intro a
        by_cases ha : a = A.Account
        · simp [Heap.setRoot, ha]
        · simp [Heap.setRoot, Function.update, ha]
      · simp only [contract.Commit, hA1, hd, if_true]
    · have hd1 : A.dirtyState = false := by simpa using hd
      refine ⟨h1, rfl, fun _ => rfl, ?_⟩
      simp only [contract.Commit, hA1, hd1, Bool.false_eq_true, if_false, if_true]
  have hkey : (hm.accounts A.Account).CodeHash = hash.val := by rw [hmc]; exact hacc1
  rw [hkey] at hcommit
  cases hp : (E.dao.Put (hm.stores A.dao) CodeKVNameSpace hash.val (some b)).1 with
  | some err =>
    rw [hcommit] at hok
    simp [hp] at hok
  | none =>
    have hget := hlaw (hm.stores A.dao) CodeKVNameSpace hash.val (some b)
      (E.dao.Put (hm.stores A.dao) CodeKVNameSpace hash.val (some b)).2 (Prod.ext hp rfl)
    have hh2 : h2 = (hm.setStore A.dao (E.dao.Put (hm.stores A.dao) CodeKVNameSpace
        hash.val (some b)).2).record (Event.daoPut A.dao CodeKVNameSpace hash.val (some b)) := by
      show (contract.Commit E A1 h1).2.2 = _
      rw [hcommit]; simp [hp]
    have hstore : h2.stores A.dao =
        (E.dao.Put (hm.stores A.dao) CodeKVNameSpace hash.val (some b)).2 := by
      rw [hh2]; simp [Heap.setStore, Heap.record]
    have hacc2 : (h2.accounts B.Account).CodeHash = hash.val := by
      rw [hh2]
      simp only [Heap.setStore, Heap.record]
      rw [hmc]; exact hhash
    refine ⟨by rw [hstore]; exact hget, hacc2, ?_, ?_⟩
    · simp only [contract.GetCode, hcode, hdao, hacc2, hstore, hget]
    · simp only [contract.GetCode, hcode, hdao, hhash, hst1]

/-- Witness of C4 on the reference store: the contract at account 0 sets code `[1]`
under `hashOf 1` and commits; a contract over the same store with an empty cache then
reads `[1]`, and before the commit it got the error "not exist" of the store. -/
theorem C4_code_durability_witness :
    refEnv.dao.PutGet ∧
    (contract.Commit refEnv
      (contract.SetCode (freshContract 0 0 0) (hashOf 1) (some [1]) exHeap0).1
      (contract.SetCode (freshContract 0 0 0) (hashOf 1) (some [1]) exHeap0).2).1 = none ∧
    (contract.GetCode refEnv (freshContract 0 0 0)
      (contract.Commit refEnv
        (contract.SetCode (freshContract 0 0 0) (hashOf 1) (some [1]) exHeap0).1
        (contract.SetCode (freshContract 0 0 0) (hashOf 1) (some [1]) exHeap0).2).2.2).1
      = (some [1], none) ∧
    (contract.GetCode refEnv (freshContract 0 0 0)
      (contract.SetCode (freshContract 0 0 0) (hashOf 1) (some [1]) exHeap0).2).1
      = (none, some ErrNotExist) :=
  ⟨memStore_PutGet, by decide,
    (C4_code_durability refEnv memStore_PutGet (freshContract 0 0 0) (freshContract 0 0 0)
      (hashOf 1) [1] exHeap0 (by decide) rfl rfl (by decide)).2.2.1,
    by decide⟩

/-- C5 (root eagerness): if `SetState(k, v)` returns no error then immediately afterwards
`RootHash()` equals the current root hash of the trie of the contract, converted to 32
bytes, with no `Commit()` called. -/
theorem C5_root_eagerness {τ σ : Type} (E : Env τ σ) (c : contract) (k : Hash32B)
    (v : GoBytes) (h : Heap τ σ)
    (_hok : (contract.SetState E c k v h).1 = none) :
    contract.RootHash (contract.SetState E c k v h).2.1 (contract.SetState E c k v h).2.2 =
      E.BytesTo32B (E.trie.RootHash
        ((contract.SetState E c k v h).2.2.tries (contract.SetState E c k v h).2.1.trie)) := by
  simp [contract.SetState, contract.RootHash, Heap.setRoot, Heap.setTrie]

/-- Witness of C5 on the reference trie: after `SetState(exKey, [1])` the root hash is 30
zero bytes followed by 1 and 2, the root of the trie. -/
theorem C5_root_eagerness_witness :
    (contract.SetState refEnv (freshContract 0 0 0) exKey (some [1]) exHeap0).1 = none ∧
    (exH.tries exC.trie).root = List.replicate 30 0 ++ [1, 2] ∧
    contract.RootHash exC exH =
      refEnv.BytesTo32B (refEnv.trie.RootHash (exH.tries exC.trie)) :=
  ⟨by decide, by decide,
    C5_root_eagerness refEnv (freshContract 0 0 0) exKey (some [1]) exHeap0 (by decide)⟩

/-- C6 (SetState under a failing trie write): when `Upsert` on the trie of the contract
returns an error `e`, `SetState` returns that same `e`, and it has set the state-dirty
flag and overwritten the storage-root field of the account with the current root hash of
the trie (the trie as the failed `Upsert` left it). -/
theorem C6_set_state_error {τ σ : Type} (E : Env τ σ) (c : contract) (k : Hash32B)
    (v : GoBytes) (h : Heap τ σ) (e : Error)
    (herr : (E.trie.Upsert (h.tries c.trie) k.val v).1 = some e) :
    (contract.SetState E c k v h).1 = some e ∧
    (contract.SetState E c k v h).2.1.dirtyState = true ∧
    (contract.SetState E c k v h).2.2.tries c.trie =
      (E.trie.Upsert (h.tries c.trie) k.val v).2 ∧
    ((contract.SetState E c k v h).2.2.accounts c.Account).Root =
      E.BytesTo32B (E.trie.RootHash ((contract.SetState E c k v h).2.2.tries c.trie)) := by
  simp [contract.SetState, Heap.setRoot, Heap.setTrie, herr]

/-- Witness of C6 on a reference trie whose writes fail with "io". -/
theorem C6_set_state_error_witness :
    (refEnv.trie.Upsert (exHeapFault.tries (freshContract 0 0 0).trie) exKey.val
      (some [1])).1 = some (Error.mk "io") ∧
    (contract.SetState refEnv (freshContract 0 0 0) exKey (some [1]) exHeapFault).1
      = some (Error.mk "io") ∧
    (contract.SetState refEnv (freshContract 0 0 0) exKey (some [1])
      exHeapFault).2.1.dirtyState = true :=
  ⟨by decide,
    (C6_set_state_error refEnv (freshContract 0 0 0) exKey (some [1]) exHeapFault
      (Error.mk "io") (by decide)).1,
    (C6_set_state_error refEnv (freshContract 0 0 0) exKey (some [1]) exHeapFault
      (Error.mk "io") (by decide)).2.1⟩

/-- Counterexample to C7 as stated: the first `Commit()` fails in the store (its `Put`
returns "io"), so the code-dirty flag stays set and the second `Commit()`, with no
mutation in between, calls `Put` again: the log of store calls grows, the store now holds
the code, and the flag of the contract changes. -/
theorem C7_counterexample :
    (contract.Commit refEnv (exDirty exHeapPutFault).1 (exDirty exHeapPutFault).2).1 ≠ none ∧
    (contract.Commit refEnv
      (contract.Commit refEnv (exDirty exHeapPutFault).1 (exDirty exHeapPutFault).2).2.1
      (contract.Commit refEnv (exDirty exHeapPutFault).1 (exDirty exHeapPutFault).2).2.2).2.2.log
      = (contract.Commit refEnv (exDirty exHeapPutFault).1 (exDirty exHeapPutFault).2).2.2.log
        ++ [Event.daoPut 0 "Code" (hashOf 1).val (some [1])] ∧
    (contract.Commit refEnv
      (contract.Commit refEnv (exDirty exHeapPutFault).1 (exDirty exHeapPutFault).2).2.1
      (contract.Commit refEnv (exDirty exHeapPutFault).1 (exDirty exHeapPutFault).2).2.2).2.2.stores 0
      ≠ (contract.Commit refEnv (exDirty exHeapPutFault).1
          (exDirty exHeapPutFault).2).2.2.stores 0 ∧
    (contract.Commit refEnv
      (contract.Commit refEnv (exDirty exHeapPutFault).1 (exDirty exHeapPutFault).2).2.1
      (contract.Commit refEnv (exDirty exHeapPutFault).1 (exDirty exHeapPutFault).2).2.2).2.1
      ≠ (contract.Commit refEnv (exDirty exHeapPutFault).1 (exDirty exHeapPutFault).2).2.1 := by
  decide

/-- C7 (commit idempotence), amended: when a `Commit()` returns no error, a second
`Commit()` right after it, with no `SetState` or `SetCode` in between, returns no error,
makes no store call and leaves the contract and the whole heap (the store and the log of
store calls included) unchanged. -/
theorem C7_commit_idempotent {τ σ : Type} (E : Env τ σ) (c : contract) (h : Heap τ σ)
    (hok : (contract.Commit E c h).1 = none) :
    contract.Commit E (contract.Commit E c h).2.1 (contract.Commit E c h).2.2 =
      (none, (contract.Commit E c h).2.1, (contract.Commit E c h).2.2) := by
  have hflags : (contract.Commit E c h).2.1.dirtyState = false ∧
      (contract.Commit E c h).2.1.dirtyCode = false := by
    cases hs : c.dirtyState <;> cases hc : c.dirtyCode <;>
      simp only [contract.Commit, hs, hc, Bool.false_eq_true, if_false, if_true] at hok ⊢
    · simp [hs, hc]
    · cases hp : (E.dao.Put (h.stores c.dao) CodeKVNameSpace (h.accounts c.Account).CodeHash
          c.code).1 with
      | some err => simp [hp] at hok
      | none => simp [hp, hs]
    · simp [hc]
    · cases hp : (E.dao.Put ((h.setRoot c.Account (E.BytesTo32B (E.trie.RootHash
          (h.tries c.trie)))).stores c.dao) CodeKVNameSpace
          ((h.setRoot c.Account (E.BytesTo32B (E.trie.RootHash
          (h.tries c.trie)))).accounts c.Account).CodeHash c.code).1 with
      | some err => simp [hp] at hok
      | none => simp [hp]
  generalize (contract.Commit E c h).2.1 = c1 at hflags
  generalize (contract.Commit E c h).2.2 = h1
  simp [contract.Commit, hflags.1, hflags.2]

/-- Witness of C7 on the reference store: a contract with both flags set commits with
success, and the second commit changes nothing. -/
theorem C7_commit_idempotent_witness :
    (contract.Commit refEnv (exDirty exHeap0).1 (exDirty exHeap0).2).1 = none ∧
    (contract.Commit refEnv (exDirty exHeap0).1 (exDirty exHeap0).2).2.2.log
      = [Event.daoPut 0 "Code" (hashOf 1).val (some [1])] ∧
    contract.Commit refEnv
      (contract.Commit refEnv (exDirty exHeap0).1 (exDirty exHeap0).2).2.1
      (contract.Commit refEnv (exDirty exHeap0).1 (exDirty exHeap0).2).2.2 =
      (none, (contract.Commit refEnv (exDirty exHeap0).1 (exDirty exHeap0).2).2.1,
        (contract.Commit refEnv (exDirty exHeap0).1 (exDirty exHeap0).2).2.2) :=
  ⟨by decide, by decide,
    C7_commit_idempotent refEnv (exDirty exHeap0).1 (exDirty exHeap0).2 (by decide)⟩

/-- Counterexample to C8 as stated: a contract with both flags set commits over a store
whose `Put` fails; `Commit()` returns an error, yet the state-dirty flag, set before the
call, is clear after it. -/
theorem C8_counterexample :
    (exDirty exHeapPutFault).1.dirtyState = true ∧
    (exDirty exHeapPutFault).1.dirtyCode = true ∧
    (contract.Commit refEnv (exDirty exHeapPutFault).1 (exDirty exHeapPutFault).2).1 =
      some (Error.wrapf (Error.mk "io") "Failed to store code for new contract, codeHash %x"
        [(hashOf 1).val]) ∧
    (contract.Commit refEnv (exDirty exHeapPutFault).1
      (exDirty exHeapPutFault).2).2.1.dirtyState = false ∧
    (contract.Commit refEnv (exDirty exHeapPutFault).1
      (exDirty exHeapPutFault).2).2.1.dirtyCode = true := by
  decide

/-- C8 (dirty flags on a failed commit), amended: if `Commit()` returns an error then the
code-dirty flag was set before the call and is still set after it, the state-dirty flag
is clear after the call (the call clears it, when set, before it attempts the code
write), and the error returned is the error of the `Put` of the code store under
namespace "Code" and the code hash, wrapped with the code hash. -/
theorem C8_commit_error_flags {τ σ : Type} (E : Env τ σ) (c : contract) (h : Heap τ σ)
    (e : Error) (herr : (contract.Commit E c h).1 = some e) :
    c.dirtyCode = true ∧
    (contract.Commit E c h).2.1.dirtyCode = true ∧
    (contract.Commit E c h).2.1.dirtyState = false ∧
    ∃ pe : Error,
      (E.dao.Put (h.stores c.dao) CodeKVNameSpace (h.accounts c.Account).CodeHash c.code).1
        = some pe ∧
      e = Error.wrapf pe "Failed to store code for new contract, codeHash %x"
        [(h.accounts c.Account).CodeHash] := by
  have hcode : ∀ r : Hash32B, ((h.setRoot c.Account r).accounts c.Account).CodeHash =
      (h.accounts c.Account).CodeHash := by
    intro r; simp [Heap.setRoot]
  have hst : ∀ r : Hash32B, (h.setRoot c.Account r).stores = h.stores := fun _ => rfl
  cases hs : c.dirtyState <;> cases hc : c.dirtyCode <;>
    simp only [contract.Commit, hs, hc, Bool.false_eq_true, if_false, if_true, hcode, hst]
      at herr ⊢
  · simp at herr
  · cases hp : (E.dao.Put (h.stores c.dao) CodeKVNameSpace (h.accounts c.Account).CodeHash
        c.code).1 with
    | some pe =>
      simp only [hp, Option.some.injEq] at herr
      simp [hp, hs, hc, herr.symm]
    | none => simp [hp] at herr
  · simp at herr
  · cases hp : (E.dao.Put (h.stores c.dao) CodeKVNameSpace (h.accounts c.Account).CodeHash
        c.code).1 with
    | some pe =>
      simp only [hp, Option.some.injEq] at herr
      simp [hp, hc, herr.symm]
    | none => simp [hp] at herr

/-- Witness of C8 on a reference store whose `Put` fails with "io". -/
theorem C8_commit_error_flags_witness :
    (contract.Commit refEnv (exDirty exHeapPutFault).1 (exDirty exHeapPutFault).2).1 =
      some (Error.wrapf (Error.mk "io") "Failed to store code for new contract, codeHash %x"
        [(hashOf 1).val]) ∧
    (contract.Commit refEnv (exDirty exHeapPutFault).1
      (exDirty exHeapPutFault).2).2.1.dirtyCode = true :=
  ⟨by decide,
    (C8_commit_error_flags refEnv (exDirty exHeapPutFault).1 (exDirty exHeapPutFault).2
      (Error.wrapf (Error.mk "io") "Failed to store code for new contract, codeHash %x"
        [(hashOf 1).val]) (by decide)).2.1⟩

/-- C9 (snapshot independence): for a contract `C` whose account cell is allocated,
`S = C.Snapshot()` has the storage root, code hash, cached code bytes and dirty flags of
`C` at the time of the call and leaves `C` and the cells of the heap unchanged;
afterwards no sequence of `SetCode` and `SetState` calls on `C` changes `S.RootHash()` or
the code hash of `S`, and none on `S` changes `C.RootHash()` or the code hash of `C` (the
account record is a copy in a new cell); the trie handle is the same, so a successful
`SetState(k, v)` on either is visible to `GetState(k)` on the other (over a trie whose
read after a successful write returns the written value). -/
theorem C9_snapshot_independence {τ σ : Type} (E : Env τ σ) (hlaw : E.trie.UpsertGet)
    (C : contract) (h0 : Heap τ σ) :
    let S := (contract.Snapshot C h0).1
    let h1 := (contract.Snapshot C h0).2.2
    C.Account < h0.next →
    (contract.RootHash S h1 = contract.RootHash C h0 ∧
      (h1.accounts S.Account).CodeHash = (h0.accounts C.Account).CodeHash ∧
      S.code = C.code ∧ S.dirtyCode = C.dirtyCode ∧ S.dirtyState = C.dirtyState) ∧
    ((contract.Snapshot C h0).2.1 = C ∧
      (∀ a : Nat, a < h0.next → h1.accounts a = h0.accounts a) ∧
      h1.tries = h0.tries ∧ h1.stores = h0.stores ∧ h1.log = h0.log) ∧
    (∀ ms : List Mutation,
      contract.RootHash S (contract.mutate E C ms h1).2 = contract.RootHash S h1 ∧
      ((contract.mutate E C ms h1).2.accounts S.Account).CodeHash =
        (h1.accounts S.Account).CodeHash) ∧
    (∀ ms : List Mutation,
      contract.RootHash C (contract.mutate E S ms h1).2 = contract.RootHash C h1 ∧
      ((contract.mutate E S ms h1).2.accounts C.Account).CodeHash =
        (h1.accounts C.Account).CodeHash) ∧
    S.Account ≠ C.Account ∧
    S.trie = C.trie ∧
    (∀ (k : Hash32B) (v : GoBytes), (contract.SetState E C k v h1).1 = none →
      (contract.GetState E S k (contract.SetState E C k v h1).2.2).1 = (v, none)) ∧
    (∀ (k : Hash32B) (v : GoBytes), (contract.SetState E S k v h1).1 = none →
      (contract.GetState E C k (contract.SetState E S k v h1).2.2).1 = (v, none)) := by
  intro S h1 hfresh
  have hSA : S.Account = h0.next := rfl
  have hSt : S.trie = C.trie := rfl
  have hne : S.Account ≠ C.Account := by rw [hSA]; omega
  have hvis : ∀ (X Y : contract) (k : Hash32B) (v : GoBytes), Y.trie = X.trie →
      (contract.SetState E X k v h1).1 = none →
      (contract.GetState E Y k (contract.SetState E X k v h1).2.2).1 = (v, none) := by
    intro X Y k v hXY hok
    rw [contract.GetState_congr E Y (contract.SetState E X k v h1).2.1 k _ hXY]
    exact contract.GetState_after_SetState E hlaw X k v h1 hok
  refine ⟨⟨?_, ?_, rfl, rfl, rfl⟩, ⟨rfl, ?_, rfl, rfl, rfl⟩, ?_, ?_, hne, hSt, ?_, ?_⟩
  · simp [contract.RootHash, S, h1, contract.Snapshot, Account.Clone]
  · simp [S, h1, contract.Snapshot, Account.Clone]
  · intro a ha
    have : a ≠ h0.next := by omega
    simp [h1, contract.Snapshot, Account.Clone, Function.update, this]
  · intro ms
    have hfr := (contract.mutate_frame E ms C h1).2 S.Account hne
    simp only [contract.RootHash, hfr, and_self]
  · intro ms
    have hfr := (contract.mutate_frame E ms S h1).2 C.Account (Ne.symm hne)
    simp only [contract.RootHash, hfr, and_self]
  · intro k v hok
    exact hvis C S k v hSt hok
  · intro k v hok
    exact hvis S C k v hSt.symm hok

/-- Witness of C9 on the reference trie: the snapshot of `exC` keeps its root hash while
`exC` overwrites a slot and sets new code, and reads the slot written through `exC`. -/
theorem C9_snapshot_independence_witness :
    refEnv.trie.UpsertGet ∧
    exC.Account < exH.next ∧
    (contract.RootHash (contract.Snapshot exC exH).1
      (contract.mutate refEnv exC
        [Mutation.setState exKey (some [2]), Mutation.setCode (hashOf 3) (some [5])]
        (contract.Snapshot exC exH).2.2).2 =
      contract.RootHash (contract.Snapshot exC exH).1 (contract.Snapshot exC exH).2.2 ∧
    ((contract.mutate refEnv exC
        [Mutation.setState exKey (some [2]), Mutation.setCode (hashOf 3) (some [5])]
        (contract.Snapshot exC exH).2.2).2.accounts (contract.Snapshot exC exH).1.Account).CodeHash =
      (((contract.Snapshot exC exH).2.2).accounts (contract.Snapshot exC exH).1.Account).CodeHash) ∧
    (contract.RootHash exC
      (contract.mutate refEnv exC
        [Mutation.setState exKey (some [2]), Mutation.setCode (hashOf 3) (some [5])]
        (contract.Snapshot exC exH).2.2).2).val = List.replicate 30 0 ++ [2, 5] ∧
    (contract.RootHash (contract.Snapshot exC exH).1
      (contract.Snapshot exC exH).2.2).val = List.replicate 30 0 ++ [1, 2] :=
  ⟨memTrie_UpsertGet, by decide,
    (C9_snapshot_independence refEnv memTrie_UpsertGet exC exH (by decide)).2.2.1
      [Mutation.setState exKey (some [2]), Mutation.setCode (hashOf 3) (some [5])],
    by decide, by decide⟩

/-- C10 (GetCode on a cache miss): for a contract whose code cache is empty, `GetCode()`
returns exactly the result of `Get` on its store under namespace "Code" and the code
hash of the account, and leaves the contract and the heap unchanged but for the log of
store calls, which gains that read; the cache is still empty, so a second `GetCode()`
reads the store again and returns the same. -/
theorem C10_get_code_miss {τ σ : Type} (E : Env τ σ) (c : contract) (h : Heap τ σ)
    (hc : c.code = none) :
    (contract.GetCode E c h).1 =
      E.dao.Get (h.stores c.dao) CodeKVNameSpace (h.accounts c.Account).CodeHash ∧
    (contract.GetCode E c h).2.1 = c ∧
    (contract.GetCode E c h).2.2 =
      h.record (Event.daoGet c.dao CodeKVNameSpace (h.accounts c.Account).CodeHash) ∧
    (contract.GetCode E c h).2.1.code = none ∧
    (contract.GetCode E (contract.GetCode E c h).2.1 (contract.GetCode E c h).2.2).1 =
      E.dao.Get (h.stores c.dao) CodeKVNameSpace (h.accounts c.Account).CodeHash ∧
    (contract.GetCode E (contract.GetCode E c h).2.1 (contract.GetCode E c h).2.2).2.2.log =
      h.log ++ [Event.daoGet c.dao CodeKVNameSpace (h.accounts c.Account).CodeHash,
                Event.daoGet c.dao CodeKVNameSpace (h.accounts c.Account).CodeHash] := by
  simp [contract.GetCode, hc, Heap.record]

/-- Witness of C10 on the reference store: a fresh contract over an empty store gets the
error "not exist", and a contract with an empty cache and code hash `hashOf 1` reads the
bytes `[9]` stored under that hash. -/
theorem C10_get_code_miss_witness :
    (freshContract 0 0 0).code = none ∧
    (contract.GetCode refEnv (freshContract 0 0 0) exHeap0).1 = (none, some ErrNotExist) ∧
    (contract.GetCode refEnv
      (contract.SetCode (freshContract 0 0 0) (hashOf 1) none exHeapCode).1
      (contract.SetCode (freshContract 0 0 0) (hashOf 1) none exHeapCode).2).1 =
      (some [9], none) ∧
    (contract.GetCode refEnv (freshContract 0 0 0) exHeap0).1 =
      refEnv.dao.Get (exHeap0.stores (freshContract 0 0 0).dao) CodeKVNameSpace
        (exHeap0.accounts (freshContract 0 0 0).Account).CodeHash :=
  ⟨rfl, by decide, by decide, (C10_get_code_miss refEnv (freshContract 0 0 0) exHeap0 rfl).1⟩

/-- Counterexample to C12 as stated: from a fresh contract, for which `GetCode()` fails
(so the invariant holds), `SetCode(hashOf 1, [1])` and `SetCode(hashOf 2, [1])` are both
accepted; after either `GetCode()` returns `[1]` without error, and the code hash is
`hashOf 1` after the one and `hashOf 2` after the other.  The two differ, so at most one
of them is the hash of `[1]`, whatever the hash function. -/
theorem C12_counterexample :
    (contract.GetCode refEnv (freshContract 0 0 0) exHeap0).1 = (none, some ErrNotExist) ∧
    (contract.GetCode refEnv
      (contract.SetCode (freshContract 0 0 0) (hashOf 1) (some [1]) exHeap0).1
      (contract.SetCode (freshContract 0 0 0) (hashOf 1) (some [1]) exHeap0).2).1 =
      (some [1], none) ∧
    ((contract.SetCode (freshContract 0 0 0) (hashOf 1) (some [1]) exHeap0).2.accounts
      0).CodeHash = (hashOf 1).val ∧
    (contract.GetCode refEnv
      (contract.SetCode (freshContract 0 0 0) (hashOf 2) (some [1]) exHeap0).1
      (contract.SetCode (freshContract 0 0 0) (hashOf 2) (some [1]) exHeap0).2).1 =
      (some [1], none) ∧
    ((contract.SetCode (freshContract 0 0 0) (hashOf 2) (some [1]) exHeap0).2.accounts
      0).CodeHash = (hashOf 2).val ∧
    (hashOf 1).val ≠ (hashOf 2).val := by
  decide

/-- C12 (code-hash invariant), amended: let `H` be the hash function of code.  From a
state in which the invariant holds and whose code-dirty flag is set only with a
non-empty code cache, after any run of `SetState`, `GetState`, `GetCode`, `Commit`,
`LoadRoot`, `Snapshot` (going on with the original or with the snapshot) and of
`SetCode(h, b)` calls that pass non-nil bytes `b` together with `h = H(b)`: whenever
`GetCode()` returns bytes `b` without error, the code hash of the account equals
`H(b)`. -/
theorem C12_code_hash_invariant {τ σ : Type} (E : Env τ σ) (H : Bytes → Hash32B)
    (c : contract) (h : Heap τ σ) (ops : List Op)
    (hflag : c.code = none → c.dirtyCode = false)
    (hinv : ∀ b : GoBytes, (contract.GetCode E c h).1 = (b, none) →
      (h.accounts c.Account).CodeHash = (H (b.getD [])).val)
    (hops : ∀ op ∈ ops, Op.hashedBy H op) :
    ∀ b : GoBytes,
      (contract.GetCode E (contract.run E c ops h).1 (contract.run E c ops h).2).1 = (b, none) →
      ((contract.run E c ops h).2.accounts (contract.run E c ops h).1.Account).CodeHash =
        (H (b.getD [])).val :=
  contract.run_CodeHashed E H ops c h hflag hinv hops

/-- Witness of C12 on the reference store with the stand-in hash `exHash`: after the run
`exCodeOps` from a fresh contract, `GetCode()` returns `[1, 2]` and the code hash is
`exHash [1, 2]`. -/
theorem C12_code_hash_invariant_witness :
    ((freshContract 0 0 0).code = none → (freshContract 0 0 0).dirtyCode = false) ∧
    (contract.GetCode refEnv (freshContract 0 0 0) exHeap0).1 = (none, some ErrNotExist) ∧
    (∀ op ∈ exCodeOps, Op.hashedBy exHash op) ∧
    (contract.GetCode refEnv (contract.run refEnv (freshContract 0 0 0) exCodeOps exHeap0).1
      (contract.run refEnv (freshContract 0 0 0) exCodeOps exHeap0).2).1 =
      (some [1, 2], none) ∧
    ((contract.run refEnv (freshContract 0 0 0) exCodeOps exHeap0).2.accounts
      (contract.run refEnv (freshContract 0 0 0) exCodeOps exHeap0).1.Account).CodeHash =
      (exHash [1, 2]).val :=
  have hops : ∀ op ∈ exCodeOps, Op.hashedBy exHash op := by
    intro op hop
    simp only [exCodeOps, List.mem_cons, List.mem_singleton, List.not_mem_nil, or_false] at hop
    rcases hop with rfl | rfl | rfl | rfl <;> simp [Op.hashedBy]
  ⟨fun _ => rfl, by decide, hops, by decide,
    C12_code_hash_invariant refEnv exHash (freshContract 0 0 0) exHeap0 exCodeOps
      (fun _ => rfl)
      (fun b hb => by
        have e : (contract.GetCode refEnv (freshContract 0 0 0) exHeap0).1 =
            (none, some ErrNotExist) := by decide
        rw [e] at hb
        simp at hb)
      hops (some [1, 2]) (by decide)⟩

/-- Counterexample to C13 as stated: `newContract` is called twice for the account record
0 over the same store and write-buffer and returns two contracts with the distinct trie
handles 4 and 5; `SetState(exKey, [1])` on the first changes `RootHash()` of the second
from the zero hash to 30 zero bytes then 1 and 2, because both hold the same account
record. -/
theorem C13_counterexample :
    (Shared.newContract refBufFactory 0 0 0 shHeap0).1 = (some shA, none) ∧
    (Shared.newContract refBufFactory 0 0 0 (shNewHeap 0 shHeap0)).1 = (some shA2, none) ∧
    shA.trie = 4 ∧ shA2.trie = 5 ∧ shA.dao = shA2.dao ∧ shA.Account = shA2.Account ∧
    (Shared.SetState refBufTrie refBytesTo32B shA exKey (some [1]) shHeapAA).1 = none ∧
    Shared.RootHash shA2 shHeapAA = ZeroHash32B ∧
    (Shared.RootHash shA2
      (Shared.SetState refBufTrie refBytesTo32B shA exKey (some [1]) shHeapAA).2.2).val =
      List.replicate 30 0 ++ [1, 2] := by
  decide

/-- C13 (storage isolation between accounts), amended: let the trie handles of the
contracts over one store and write-buffer share its nodes, and let those nodes be
content-addressed: a write keeps every stored node, and a stored root stays stored and
reads the same while nodes are kept.  For two contracts `A` and `B` made for distinct
account records, with distinct trie handles, the root of the trie of `B` addressing a
stored node (as after a successful start), `SetState(k, v)` on `A` changes neither the
result of `GetState` on `B`, for `k` and for every other key, nor `B.RootHash()`; the
root of `B` is still stored afterwards. -/
theorem C13_storage_isolation {β τ : Type} (T : BufTrie β τ) (conv : Bytes → Hash32B)
    (ext : β → β → Prop) (stored : β → τ → Prop) (hca : T.ContentAddressed ext stored)
    (A B : contract) (w : BufHeap β τ) (k : Hash32B) (v : GoBytes)
    (htrie : A.trie ≠ B.trie) (hacct : A.Account ≠ B.Account)
    (hstored : stored w.nodes (w.tries B.trie)) :
    (∀ k1 : Hash32B, (Shared.GetState T B k1 (Shared.SetState T conv A k v w).2.2).1 =
      (Shared.GetState T B k1 w).1) ∧
    Shared.RootHash B (Shared.SetState T conv A k v w).2.2 = Shared.RootHash B w ∧
    (Shared.SetState T conv A k v w).2.2.tries B.trie = w.tries B.trie ∧
    stored (Shared.SetState T conv A k v w).2.2.nodes
      ((Shared.SetState T conv A k v w).2.2.tries B.trie) := by
  have hnodes : (Shared.SetState T conv A k v w).2.2.nodes =
      (T.Upsert w.nodes (w.tries A.trie) k.val v).2.1 := rfl
  have ht : (Shared.SetState T conv A k v w).2.2.tries B.trie = w.tries B.trie := by
    simp [Shared.SetState, BufHeap.setRoot, BufHeap.setTrie, Function.update, Ne.symm htrie]
  have ha : (Shared.SetState T conv A k v w).2.2.accounts B.Account = w.accounts B.Account := by
    simp [Shared.SetState, BufHeap.setRoot, BufHeap.setTrie, Function.update, Ne.symm hacct]
  have hext := hca.upsert_ext w.nodes (w.tries A.trie) k.val v
  refine ⟨?_, ?_, ht, ?_⟩
  · intro k1
    have hget := hca.get_ext _ _ (w.tries B.trie) k1.val hext hstored
    simp only [Shared.GetState, ht, hnodes, hget]
    cases (T.Get w.nodes (w.tries B.trie) k1.val).2 <;> rfl
  · simp only [Shared.RootHash, ha]
  · rw [ht, hnodes]
    exact hca.stored_ext _ _ _ hext hstored

/-- Witness of C13 on the reference trie over shared nodes: `A` and `B` are made by
`newContract` for the account records 0 and 1 over the same store and write-buffer, and
`B` has written `[7]` to slot `exKey`; `SetState(exKey, [1])` on `A` adds its node to the
shared nodes, and `B` still reads `[7]` and keeps its root hash. -/
theorem C13_storage_isolation_witness :
    refBufTrie.ContentAddressed refExt refStored ∧
    (Shared.newContract refBufFactory 0 0 0 shHeap0).1 = (some shA, none) ∧
    (Shared.newContract refBufFactory 1 0 0 (shNewHeap 0 shHeap0)).1 = (some shB, none) ∧
    shA.trie ≠ shB.trie ∧ shA.Account ≠ shB.Account ∧ shA.dao = shB.dao ∧
    refStored shHeapAB.nodes (shHeapAB.tries shB.trie) ∧
    (Shared.SetState refBufTrie refBytesTo32B shA exKey (some [1]) shHeapAB).1 = none ∧
    (Shared.SetState refBufTrie refBytesTo32B shA exKey (some [1]) shHeapAB).2.2.nodes.length =
      shHeapAB.nodes.length + 1 ∧
    (Shared.GetState refBufTrie shB exKey shHeapAB).1 = (some [7], none) ∧
    (Shared.GetState refBufTrie shA exKey
      (Shared.SetState refBufTrie refBytesTo32B shA exKey (some [1]) shHeapAB).2.2).1 =
      (some [1], none) ∧
    ((∀ k1 : Hash32B,
        (Shared.GetState refBufTrie shB k1
          (Shared.SetState refBufTrie refBytesTo32B shA exKey (some [1]) shHeapAB).2.2).1 =
        (Shared.GetState refBufTrie shB k1 shHeapAB).1) ∧
      Shared.RootHash shB
        (Shared.SetState refBufTrie refBytesTo32B shA exKey (some [1]) shHeapAB).2.2 =
        Shared.RootHash shB shHeapAB) :=
  ⟨refBufTrie_ContentAddressed, by decide, by decide, by decide, by decide, by decide,
    by unfold refStored; decide, by decide, by decide, by decide, by decide,
    ⟨(C13_storage_isolation refBufTrie refBytesTo32B refExt refStored
        refBufTrie_ContentAddressed shA shB shHeapAB exKey (some [1]) (by decide) (by decide)
        (by unfold refStored; decide)).1,
     (C13_storage_isolation refBufTrie refBytesTo32B refExt refStored
        refBufTrie_ContentAddressed shA shB shHeapAB exKey (some [1]) (by decide) (by decide)
        (by unfold refStored; decide)).2.1⟩⟩

/-- Counterexample to C14 as stated: `exC` has written a slot (state-dirty, root 30 zero
bytes then 1 and 2); its snapshot, which shares the trie handle, then writes the slot
again; now `Commit()` on `exC` recomputes the root from the shared trie and `RootHash()`
changes to 30 zero bytes then 2 and 5. -/
theorem C14_counterexample :
    exC.dirtyState = true ∧
    (contract.SetState refEnv (contract.Snapshot exC exH).1 exKey (some [2])
      (contract.Snapshot exC exH).2.2).1 = none ∧
    (contract.Commit refEnv exC exSnapWritten.2).1 = none ∧
    (contract.RootHash exC exSnapWritten.2).val = List.replicate 30 0 ++ [1, 2] ∧
    (contract.RootHash (contract.Commit refEnv exC exSnapWritten.2).2.1
      (contract.Commit refEnv exC exSnapWritten.2).2.2).val = List.replicate 30 0 ++ [2, 5] := by
  decide

/-- C14 (commit re-asserts the root), amended: over a trie whose root hash after a
successful reset is the hash it was reset to, and a conversion to 32 bytes that gives
back a 32-byte hash.  Take a contract with an allocated account record in any state,
however it and the contracts sharing its trie handle were operated on before, whose
state-dirty flag is clear or whose next call is a `SetState` or a successful `LoadRoot`
of its own.  After any run of `SetState`, `SetCode`, `GetState`, `GetCode`, `Commit`,
successful `LoadRoot` and `Snapshot` on it, interleaved in any order with calls on other
contracts (its snapshots, the original) that have an account record of their own and
that make no `SetState` or `LoadRoot` on its trie handle, `Commit()` on it leaves the
value returned by `RootHash()` unchanged. -/
theorem C14_commit_keeps_root {τ σ : Type} (E : Env τ σ) (hreset : E.trie.RootReset)
    (h32 : E.RoundTrip32) (c : contract) (h : Heap τ σ) (calls : List Call)
    (halloc : c.Account < h.next)
    (hstart : c.dirtyState = false ∨ Call.startsSynced calls = true)
    (hquiet : contract.undisturbed E c calls h = true) :
    contract.RootHash
      (contract.Commit E (contract.runAmong E c calls h).1 (contract.runAmong E c calls h).2).2.1
      (contract.Commit E (contract.runAmong E c calls h).1 (contract.runAmong E c calls h).2).2.2 =
      contract.RootHash (contract.runAmong E c calls h).1 (contract.runAmong E c calls h).2 := by
  have hpre : Call.startsSynced calls = true ∨
      (c.dirtyState = true → contract.RootSynced E c h) := by
    rcases hstart with hc | hs
    · exact Or.inr (fun hd => by rw [hc] at hd; cases hd)
    · exact Or.inl hs
  have hinv := contract.runAmong_synced E hreset h32 calls c h halloc hpre hquiet
  rw [(contract.Commit_frame E _ _).2.2.2.2.2.2.2.2.2]
  cases hd : (contract.runAmong E c calls h).1.dirtyState with
  | false => simp
  | true =>
    have := hinv hd
    simp only [contract.RootSynced] at this
    simp [this]

/-- Witness of C14 on the reference trie, a revert: `exC` has written after its snapshot
was taken, so the state-dirty snapshot (root 30 zero bytes then 1 and 2) is out of step
with the shared trie; it takes over with a successful `LoadRoot` and writes a slot, while
`exC` reads, commits and sets code in between; its root hash is then 30 zero bytes then
2 and 8, before and after `Commit()`. -/
theorem C14_commit_keeps_root_witness :
    refEnv.trie.RootReset ∧ refEnv.RoundTrip32 ∧
    (contract.Snapshot exC exH).1.Account < exOrigWritten.2.next ∧
    (contract.Snapshot exC exH).1.dirtyState = true ∧
    Call.startsSynced exRevert = true ∧
    contract.undisturbed refEnv (contract.Snapshot exC exH).1 exRevert exOrigWritten.2 = true ∧
    (contract.RootHash (contract.Snapshot exC exH).1 exOrigWritten.2).val =
      List.replicate 30 0 ++ [1, 2] ∧
    (refEnv.trie.RootHash (exOrigWritten.2.tries (contract.Snapshot exC exH).1.trie)) =
      List.replicate 30 0 ++ [2, 5] ∧
    (contract.runAmong refEnv (contract.Snapshot exC exH).1 exRevert
      exOrigWritten.2).1.dirtyState = true ∧
    (contract.RootHash
      (contract.runAmong refEnv (contract.Snapshot exC exH).1 exRevert exOrigWritten.2).1
      (contract.runAmong refEnv (contract.Snapshot exC exH).1 exRevert exOrigWritten.2).2).val =
      List.replicate 30 0 ++ [2, 8] ∧
    contract.RootHash
      (contract.Commit refEnv
        (contract.runAmong refEnv (contract.Snapshot exC exH).1 exRevert exOrigWritten.2).1
        (contract.runAmong refEnv (contract.Snapshot exC exH).1 exRevert exOrigWritten.2).2).2.1
      (contract.Commit refEnv
        (contract.runAmong refEnv (contract.Snapshot exC exH).1 exRevert exOrigWritten.2).1
        (contract.runAmong refEnv (contract.Snapshot exC exH).1 exRevert exOrigWritten.2).2).2.2 =
      contract.RootHash
        (contract.runAmong refEnv (contract.Snapshot exC exH).1 exRevert exOrigWritten.2).1
        (contract.runAmong refEnv (contract.Snapshot exC exH).1 exRevert exOrigWritten.2).2 :=
  ⟨memTrie_RootReset, refEnv_RoundTrip32, by decide, by decide, by decide, by decide,
    by decide, by decide, by decide, by decide,
    C14_commit_keeps_root refEnv memTrie_RootReset refEnv_RoundTrip32
      (contract.Snapshot exC exH).1 exOrigWritten.2 exRevert (by decide) (Or.inr (by decide))
      (by decide)⟩

/-- C15 (effect and frame of SetCode): `SetCode(h, b)` sets the code hash of the account
to `h`, the code cache to `b` and the code-dirty flag to true; it makes no store call
and changes no store; it leaves the storage root, the state-dirty flag, the tries, the
nonce and the balance of the account, every other account record and the addresses held
by the contract unchanged. -/
theorem C15_set_code_frame {τ σ : Type} (c : contract) (hash : Hash32B) (code : GoBytes)
    (h : Heap τ σ) :
    ((contract.SetCode c hash code h).2.accounts c.Account).CodeHash = hash.val ∧
    (contract.SetCode c hash code h).1.code = code ∧
    (contract.SetCode c hash code h).1.dirtyCode = true ∧
    (contract.SetCode c hash code h).2.log = h.log ∧
    (contract.SetCode c hash code h).2.stores = h.stores ∧
    contract.RootHash (contract.SetCode c hash code h).1 (contract.SetCode c hash code h).2 =
      contract.RootHash c h ∧
    (contract.SetCode c hash code h).1.dirtyState = c.dirtyState ∧
    (contract.SetCode c hash code h).2.tries = h.tries ∧
    ((contract.SetCode c hash code h).2.accounts c.Account).Balance =
      (h.accounts c.Account).Balance ∧
    ((contract.SetCode c hash code h).2.accounts c.Account).Nonce =
      (h.accounts c.Account).Nonce ∧
    (∀ a : Nat, a ≠ c.Account → (contract.SetCode c hash code h).2.accounts a = h.accounts a) ∧
    (contract.SetCode c hash code h).1.Account = c.Account ∧
    (contract.SetCode c hash code h).1.trie = c.trie ∧
    (contract.SetCode c hash code h).1.dao = c.dao ∧
    (contract.SetCode c hash code h).1.root = c.root ∧
    (contract.SetCode c hash code h).2.next = h.next := by
  refine ⟨?_, rfl, rfl, rfl, rfl, ?_, rfl, rfl, ?_, ?_, ?_, rfl, rfl, rfl, rfl, rfl⟩
  · simp [contract.SetCode, Heap.setCodeHash]
  · simp [contract.SetCode, contract.RootHash, Heap.setCodeHash]
  · simp [contract.SetCode, Heap.setCodeHash]
  · simp [contract.SetCode, Heap.setCodeHash]
  · intro a ha
    simp [contract.SetCode, Heap.setCodeHash, Function.update, ha]

/-- C16 (construction): `newContract` asks for the trie with the store option, the key
length `HashSize` and, exactly when the storage root of the account is not the zero
hash, the root-hash option with that root.  An error from the trie store creation, from
the trie creation (wrapped) or from the trie start is returned with no contract.  On
success the contract holds the account, the store and a new trie handle (the started
trie), has both dirty flags clear and an empty code cache, `RootHash()` is the storage
root of the account, and an immediate `Commit()` returns no error, makes no store call
and changes nothing. -/
theorem C16_construction {τ σ κ : Type} (E : Env τ σ) (F : Factory τ σ κ)
    (state dao batch : Nat) (h : Heap τ σ) :
    (∀ e : Error,
      F.NewKVStoreForTrie ContractKVNameSpace dao (h.stores dao) batch = Except.error e →
      newContract F state dao batch h = ((none, some e), h)) ∧
    (∀ db : κ,
      F.NewKVStoreForTrie ContractKVNameSpace dao (h.stores dao) batch = Except.ok db →
      (∀ e : Error,
        F.NewTrie (if (h.accounts state).Root = ZeroHash32B then
            [TrieOption.KVStoreOption db, TrieOption.KeyLengthOption HashSize]
          else [TrieOption.KVStoreOption db, TrieOption.KeyLengthOption HashSize,
            TrieOption.RootHashOption (h.accounts state).Root.val]) = Except.error e →
        newContract F state dao batch h =
          ((none, some (Error.wrapf e "failed to create storage trie for new contract" [])),
            h)) ∧
      (∀ tr : τ,
        F.NewTrie (if (h.accounts state).Root = ZeroHash32B then
            [TrieOption.KVStoreOption db, TrieOption.KeyLengthOption HashSize]
          else [TrieOption.KVStoreOption db, TrieOption.KeyLengthOption HashSize,
            TrieOption.RootHashOption (h.accounts state).Root.val]) = Except.ok tr →
        (∀ e : Error, (F.Start tr).1 = some e →
          (newContract F state dao batch h).1 = (none, some e)) ∧
        ((F.Start tr).1 = none →
          ∃ c : contract,
            (newContract F state dao batch h).1 = (some c, none) ∧
            c.dirtyCode = false ∧ c.dirtyState = false ∧ c.code = none ∧
            c.Account = state ∧ c.dao = dao ∧ c.trie = h.next ∧
            (newContract F state dao batch h).2.tries c.trie = (F.Start tr).2 ∧
            (newContract F state dao batch h).2.next = h.next + 1 ∧
            contract.RootHash c (newContract F state dao batch h).2 =
              (h.accounts state).Root ∧
            contract.Commit E c (newContract F state dao batch h).2 =
              (none, c, (newContract F state dao batch h).2)))) := by
  have hopts : ∀ db : κ,
      (if (h.accounts state).Root ≠ ZeroHash32B then
        [TrieOption.KVStoreOption db, TrieOption.KeyLengthOption HashSize] ++
          [TrieOption.RootHashOption (h.accounts state).Root.val]
      else [TrieOption.KVStoreOption db, TrieOption.KeyLengthOption HashSize]) =
      (if (h.accounts state).Root = ZeroHash32B then
        [TrieOption.KVStoreOption db, TrieOption.KeyLengthOption HashSize]
      else [TrieOption.KVStoreOption db, TrieOption.KeyLengthOption HashSize,
        TrieOption.RootHashOption (h.accounts state).Root.val]) := by
    intro db
    by_cases hz : (h.accounts state).Root = ZeroHash32B <;> simp [hz]
  refine ⟨?_, ?_⟩
  · intro e he
    simp only [newContract, he]
  · intro db hdb
    refine ⟨?_, ?_⟩
    · intro e he
      simp only [newContract, hdb, hopts, he]
    · intro tr htr
      refine ⟨?_, ?_⟩
      · intro e he
        simp only [newContract, hdb, hopts, htr, he]
      · intro hok
        refine ⟨{ Account := state, dirtyCode := false, dirtyState := false, code := none,
                  root := (h.accounts state).Root, dao := dao, trie := h.next }, ?_⟩
        have hnew : newContract F state dao batch h =
            ((some { Account := state, dirtyCode := false, dirtyState := false, code := none,
                     root := (h.accounts state).Root, dao := dao, trie := h.next }, none),
              { h.setTrie h.next (F.Start tr).2 with next := h.next + 1 }) := by
          simp only [newContract, hdb, hopts, htr, hok]
        rw [hnew]
        refine ⟨rfl, rfl, rfl, rfl, rfl, rfl, rfl, ?_, rfl, rfl, ?_⟩
        · simp [Heap.setTrie]
        · simp [contract.Commit]

/-- Witness of C16 with the reference constructors: for account 0, whose storage root is
zero, `newContract` asks for an empty trie and returns a clean contract on the new trie
handle 4, whose immediate `Commit()` changes nothing. -/
theorem C16_construction_witness :
    (refFactory []).NewKVStoreForTrie ContractKVNameSpace 0 (exHeap0.stores 0) 0 =
      Except.ok [] ∧
    (exHeap0.accounts 0).Root = ZeroHash32B ∧
    (newContract (refFactory []) 0 0 0 exHeap0).1 = (some (exNew 0 exHeap0), none) ∧
    (exNew 0 exHeap0).trie = 4 ∧
    ((newContract (refFactory []) 0 0 0 exHeap0).2.tries 4).root = List.replicate 32 0 ∧
    ∃ c : contract,
      (newContract (refFactory []) 0 0 0 exHeap0).1 = (some c, none) ∧
      c.dirtyCode = false ∧ c.dirtyState = false ∧ c.code = none ∧
      c.Account = 0 ∧ c.dao = 0 ∧ c.trie = exHeap0.next ∧
      (newContract (refFactory []) 0 0 0 exHeap0).2.tries c.trie =
        ((refFactory []).Start
          { root := MemTrie.digest [], nodes := [(MemTrie.digest [], [])], fault := none }).2 ∧
      (newContract (refFactory []) 0 0 0 exHeap0).2.next = exHeap0.next + 1 ∧
      contract.RootHash c (newContract (refFactory []) 0 0 0 exHeap0).2 =
        (exHeap0.accounts 0).Root ∧
      contract.Commit refEnv c (newContract (refFactory []) 0 0 0 exHeap0).2 =
        (none, c, (newContract (refFactory []) 0 0 0 exHeap0).2) :=
  ⟨rfl, rfl, by decide, by decide, by decide,
    (((C16_construction refEnv (refFactory []) 0 0 0 exHeap0).2 [] rfl).2
      { root := MemTrie.digest [], nodes := [(MemTrie.digest [], [])], fault := none }
      rfl).2 rfl⟩

end Evm

namespace Action

open Evm

/-! ## Theorems on the actions -/

/-- C17 (NewVote validation): `NewVote` returns an error if and only if the voter address
is the empty string, and then the error wraps `ErrAddress` and no vote is returned;
otherwise it returns a vote whose `Voter()` is the given voter address, whose `Votee()`
is the given votee address (empty or not), and whose nonce, gas limit and gas price are
the given ones. -/
theorem C17_new_vote (nonce : Nat) (voterAddress voteeAddress : String) (gasLimit : Nat)
    (gasPrice : Option Int) :
    ((NewVote nonce voterAddress voteeAddress gasLimit gasPrice).2 ≠ none ↔
      voterAddress = "") ∧
    (voterAddress = "" →
      NewVote nonce voterAddress voteeAddress gasLimit gasPrice =
        (none, some (Error.wrapf ErrAddress "address of the voter is empty" []))) ∧
    (voterAddress ≠ "" →
      ∃ v : Vote,
        NewVote nonce voterAddress voteeAddress gasLimit gasPrice = (some v, none) ∧
        v.Voter = voterAddress ∧ v.Votee = voteeAddress ∧
        v.AbstractAction.Nonce = nonce ∧ v.AbstractAction.GasLimit = gasLimit ∧
        v.AbstractAction.gasPrice = gasPrice) := by
  by_cases hv : voterAddress = ""
  · simp [NewVote, hv]
  · refine ⟨by simp [NewVote, hv], fun he => absurd he hv, fun _ => ?_⟩
    exact ⟨{ AbstractAction :=
              { version := ProtocolVersion, nonce := nonce, srcAddr := voterAddress,
                dstAddr := voteeAddress, gasLimit := gasLimit, gasPrice := gasPrice } },
      by simp [NewVote, hv], rfl, rfl, rfl, rfl, rfl⟩

/-- C18 (cost): for every vote with gas price `p`, `Cost()` returns exactly `p * 10000`
(`p` times `VoteIntrinsicGas`) and no error, whatever its gas limit, nonce and addresses;
for every StopSubChain action with gas price `q`, `Cost()` returns exactly `q * 1000` and
no error.  The products are integers of arbitrary precision. -/
theorem C18_cost (v : Vote) (ssc : StopSubChain) (p q : Int)
    (hv : v.AbstractAction.gasPrice = some p) (hs : ssc.AbstractAction.gasPrice = some q) :
    v.Cost = (some (p * 10000), none) ∧ ssc.Cost = (some (q * 1000), none) := by
  simp [Vote.Cost, Vote.IntrinsicGas, VoteIntrinsicGas, StopSubChain.Cost,
    StopSubChain.IntrinsicGas, StopSubChainIntrinsicGas, AbstractAction.GasPrice, hv, hs]

/-- Witness of C18: a vote with gas price 7 costs 70000, a StopSubChain action with gas
price -3 costs -3000. -/
theorem C18_cost_witness :
    (⟨{ AbstractAction.zero with gasPrice := some 7, srcAddr := "voter" }⟩ : Vote).Cost =
      (some 70000, none) ∧
    (NewStopSubChain "sender" 1 "chain" 100 10 (some (-3))).Cost = (some (-3000), none) :=
  C18_cost ⟨{ AbstractAction.zero with gasPrice := some 7, srcAddr := "voter" }⟩
    (NewStopSubChain "sender" 1 "chain" 100 10 (some (-3))) 7 (-3) rfl rfl

/-- Witness of C17: an empty voter address gives the wrapped `ErrAddress` and no vote;
the voter "voter" with an empty votee address gives a vote. -/
theorem C17_new_vote_witness :
    NewVote 1 "" "votee" 10 (some 5) =
      (none, some (Error.wrapf ErrAddress "address of the voter is empty" [])) ∧
    (NewVote 1 "voter" "" 10 (some 5)).2 = none ∧
    ((NewVote 1 "voter" "" 10 (some 5)).1.map Vote.Voter = some "voter") ∧
    ((NewVote 1 "voter" "" 10 (some 5)).1.map Vote.Votee = some "") :=
  ⟨(C17_new_vote 1 "" "votee" 10 (some 5)).2.1 rfl, by decide, by decide, by decide⟩

/-- Counterexample to C19 as stated: the action made by
`NewStopSubChain("sender", 1, "chain", 100, 10, 1)` has chain address "chain" and its
`Proto()` carries that address; `LoadProto` of this message into an action succeeds and
restores the stop height 100, but the chain address of the loaded action is the empty
string. -/
theorem C19_counterexample :
    (NewStopSubChain "sender" 1 "chain" 100 10 (some 1)).ChainAddress = "chain" ∧
    (NewStopSubChain "sender" 1 "chain" 100 10 (some 1)).Proto =
      { StopHeight := 100, SubChainAddress := "chain" } ∧
    (StopSubChain.LoadProto (some StopSubChain.zero)
      (some (NewStopSubChain "sender" 1 "chain" 100 10 (some 1)).Proto)).2 = none ∧
    (StopSubChain.LoadProto (some StopSubChain.zero)
      (some (NewStopSubChain "sender" 1 "chain" 100 10 (some 1)).Proto)).1.map
        StopSubChain.StopHeight = some 100 ∧
    (StopSubChain.LoadProto (some StopSubChain.zero)
      (some (NewStopSubChain "sender" 1 "chain" 100 10 (some 1)).Proto)).1.map
        StopSubChain.ChainAddress = some "" := by
  decide

/-- C19 (protobuf round trip), amended: for every StopSubChain action `a` and every
action `x` that receives it, `x.LoadProto(a.Proto())` succeeds and leaves in `x` an action
whose `StopHeight()` equals that of `a`; every other field of `x` is reset to its zero
value, so its `ChainAddress()` is the empty string: it equals that of `a` exactly when
the chain address of `a` is empty. -/
theorem C19_load_proto (a x : StopSubChain) :
    ∃ r : StopSubChain,
      StopSubChain.LoadProto (some x) (some a.Proto) = (some r, none) ∧
      r.StopHeight = a.StopHeight ∧
      r.ChainAddress = "" ∧
      r = { StopSubChain.zero with stopHeight := a.StopHeight } ∧
      (r.ChainAddress = a.ChainAddress ↔ a.ChainAddress = "") :=
  ⟨{ StopSubChain.zero with stopHeight := a.StopHeight }, rfl, rfl, rfl, rfl,
    ⟨fun he => he.symm, fun he => he.symm ▸ rfl⟩⟩

end Action
